import Mathlib

/-!
Verification of the TRMNL-HA image-preparation pipeline.

This file shallowly embeds the two core components of the repository:

* the dithering engine `applyDithering` from `src/puppet/ha-puppet/lib/dithering.js`,
  modelled as a pure function over byte lists; the external GraphicsMagick backend
  (reached through the `gm` call chain) is modelled as an opaque parameter
  receiving the exact operation chain the source builds;
* the BMP container encoder `BMPEncoder` from `src/puppet/ha-puppet/bmp.js`,
  modelled byte-exactly, including the JavaScript `Number` arithmetic of the
  constructor (fractional row sizes are represented as rationals) and the
  Node.js `Buffer` read/write bounds checks.

Definitions come first, then the theorems about the claims of the specification.
-/

/-! ### Preliminaries -/

/-- Decidable equality for `Except` results, so that concrete runs of the
embedded functions can be checked by `decide`. -/
instance instDecEqExcept {ε α : Type} [DecidableEq ε] [DecidableEq α] :
    DecidableEq (Except ε α)
  | Except.ok a, Except.ok b =>
    if h : a = b then isTrue (by rw [h])
    else isFalse (by intro hh; cases hh; exact h rfl)
  | Except.ok _, Except.error _ => isFalse (by intro hh; cases hh)
  | Except.error _, Except.ok _ => isFalse (by intro hh; cases hh)
  | Except.error e, Except.error f =>
    if h : e = f then isTrue (by rw [h])
    else isFalse (by intro hh; cases hh; exact h rfl)

/-! ### Dithering engine: data model -/

/-- One operation of the GraphicsMagick call chain built by `applyDithering`
(lines 113-167 of `lib/dithering.js`).  `level b w` models
`image.level(b + "%", 1.0, w + "%")`; `dither f` models `image.dither(f)`;
`colors n` models `image.colors(n)`; `threshold p true` models
`image.threshold(p, true)` (percentage threshold). -/
inductive GMOp where
  | noProfile
  | colorspaceGray
  | level (blackPoint whitePoint : Int)
  | dither (flag : Bool)
  | monochrome
  | threshold (pct : Int) (percentFlag : Bool)
  | colors (n : Int)
deriving Repr, DecidableEq

/-- The input to `applyDithering`: either a JavaScript `Buffer` (a byte list) or
any other JavaScript value (`nonBuffer`), which `Buffer.isBuffer` rejects. -/
inductive DitherInput where
  | buffer (data : List Nat)
  | nonBuffer
deriving Repr, DecidableEq

/-- The errors thrown by `applyDithering`, one constructor per `throw` site of the
source.  The first is the spec's `InvalidInput`, the next four are the spec's
`InvalidOption`, the last is the spec's `ProcessingFailed` (the catch block that
wraps any backend failure as `Dithering failed: ...`). -/
inductive DitherError where
  | notABuffer
  | invalidMethod (m : String)
  | invalidBitDepth (d : Int)
  | invalidLevelRange
  | invalidLevelOrder
  | processingFailed (msg : String)
deriving Repr, DecidableEq

/-- Whether an error is one of the spec's `InvalidOption` family (the four option
validation `throw` sites of `applyDithering`). -/
def DitherError.isInvalidOption : DitherError → Bool
  | .invalidMethod _ => true
  | .invalidBitDepth _ => true
  | .invalidLevelRange => true
  | .invalidLevelOrder => true
  | _ => false

/-- The options record passed to `applyDithering`.  A `none` field models an
absent (or `undefined`) JavaScript property, for which the destructuring
defaults of the source apply. -/
structure DitherOptions where
  method : Option String := none
  bitDepth : Option Int := none
  gammaCorrection : Option Bool := none
  blackLevel : Option Int := none
  whiteLevel : Option Int := none
deriving Repr, DecidableEq

/-- The empty options record `{}` (every field absent). -/
def emptyOptions : DitherOptions := ⟨none, none, none, none, none⟩

/-- The options record `{method: "none", bitDepth: 8, blackLevel: 0, whiteLevel: 100}`
of the identity fast path. -/
def identityOptions : DitherOptions := ⟨some "none", some 8, none, some 0, some 100⟩

/-- A backend is the external GraphicsMagick process: it receives the operation
chain built on the `gm` instance and the input bytes, and either produces the
re-encoded PNG bytes (`toBuffer("PNG")`) or fails with an error message. -/
def GMBackend : Type := List GMOp → List Nat → Except String (List Nat)

/-- The GraphicsMagick call chain `applyDithering` builds from the validated,
defaulted options (lines 113-167 of `lib/dithering.js`). -/
def buildPipeline (method : String) (bitDepth : Int) (gammaCorrection : Bool)
    (blackLevel whiteLevel : Int) : List GMOp :=
  let image : List GMOp := []
  let image := if gammaCorrection then image ++ [GMOp.noProfile] else image
  let image := image ++ [GMOp.colorspaceGray]
  let image :=
    if 0 < blackLevel ∨ whiteLevel < 100 then
      image ++ [GMOp.level blackLevel whiteLevel]
    else image
  if bitDepth = 1 then
    if method = "floyd-steinberg" then image ++ [GMOp.dither true, GMOp.monochrome]
    else if method = "ordered" then image ++ [GMOp.dither false, GMOp.monochrome]
    else image ++ [GMOp.threshold 50 true]
  else if bitDepth = 2 ∨ bitDepth = 4 then
    let colors : Int := 2 ^ bitDepth.toNat
    if method = "floyd-steinberg" then image ++ [GMOp.dither true, GMOp.colors colors]
    else if method = "ordered" then image ++ [GMOp.dither false, GMOp.colors colors]
    else image ++ [GMOp.colors colors]
  else
    if method = "floyd-steinberg" then image ++ [GMOp.dither true]
    else if method = "ordered" then image ++ [GMOp.dither false]
    else image

/-- The dithering engine, `applyDithering` of `lib/dithering.js` (lines 72-189):
input check (`Buffer.isBuffer`), destructuring defaults, the four option
validation throws, the backward-compatible identity fast path, and otherwise the
GraphicsMagick pipeline whose failure is wrapped as `processingFailed`.  The
backend is a parameter, so every theorem quantified over `backend` holds no
matter what the external process does. -/
def applyDithering (backend : GMBackend) (imageBuffer : DitherInput)
    (options : DitherOptions) : Except DitherError (List Nat) :=
  match imageBuffer with
  | DitherInput.nonBuffer => Except.error DitherError.notABuffer
  | DitherInput.buffer data =>
    let method := options.method.getD "floyd-steinberg"
    let bitDepth := options.bitDepth.getD 4
    let gammaCorrection := options.gammaCorrection.getD true
    let blackLevel := options.blackLevel.getD 0
    let whiteLevel := options.whiteLevel.getD 100
    if (["floyd-steinberg", "ordered", "none"].contains method) = false then
      Except.error (DitherError.invalidMethod method)
    else if (([1, 2, 4, 8] : List Int).contains bitDepth) = false then
      Except.error (DitherError.invalidBitDepth bitDepth)
    else if blackLevel < 0 ∨ 100 < blackLevel ∨ whiteLevel < 0 ∨ 100 < whiteLevel then
      Except.error DitherError.invalidLevelRange
    else if whiteLevel ≤ blackLevel then
      Except.error DitherError.invalidLevelOrder
    else if method = "none" ∧ bitDepth = 8 ∧ blackLevel = 0 ∧ whiteLevel = 100 then
      Except.ok data
    else
      match backend
          (buildPipeline method bitDepth gammaCorrection blackLevel whiteLevel) data with
      | Except.ok result => Except.ok result
      | Except.error msg => Except.error (DitherError.processingFailed msg)

/-! ### BMP encoder: Node Buffer model

The encoder `bmp.js` computes `rowBytes = width * (bitsPerPixel / 8)` with
JavaScript number arithmetic, which is fractional in 1-bit mode when the width
is not a multiple of 8; the derived fields and every buffer offset are
therefore modelled as rationals.  Node's `Buffer` methods validate offsets
(fractional or out-of-range offsets throw `ERR_OUT_OF_RANGE`) but `checkInt`
only range-checks values, so `NaN` (an `undefined` sample coerced by `+value`)
passes and stores as 0, and a fractional value is truncated by the store. -/

/-- Errors of the modelled JavaScript runtime and the `BMPEncoder` constructor:
the constructor's unsupported-depth throw, `checkInt`'s value range throw,
the bounds/integrality throw of buffer reads and writes, and the
`Buffer.alloc` size throw. -/
inductive JsErr where
  | unsupportedDepth
  | valueOutOfRange
  | offsetOutOfRange
  | sizeOutOfRange
deriving Repr, DecidableEq

/-- JavaScript indexing `data[i]`: `none` models `undefined` for an
out-of-range index. -/
def jsIndex (data : List Nat) (i : Nat) : Option Nat :=
  if i < data.length then some (data.getD i 0) else none

/-- JavaScript `%` (remainder).  Both operands are nonnegative wherever the
encoder uses it, where it agrees with `a - b * ⌊a / b⌋`. -/
def jsMod (a b : ℚ) : ℚ := a - b * ((⌊a / b⌋ : ℤ) : ℚ)

/-- `Buffer.alloc(size)`: a zero-filled buffer.  A fractional size is truncated
to its integer part (ECMAScript `ToIndex` on the typed-array length); a
negative size throws. -/
def bufferAlloc (size : ℚ) : Except JsErr (List Nat) :=
  if size < 0 then Except.error JsErr.sizeOutOfRange
  else Except.ok (List.replicate (Int.toNat ⌊size⌋) 0)

/-- Whether a rational is a canonical integer index below `len`; a fractional
or out-of-range offset makes Node's bounds check throw. -/
def isIdx (offset : ℚ) (len : Nat) : Bool :=
  decide (offset.den = 1 ∧ 0 ≤ offset.num ∧ offset.num < (len : ℤ))

/-- The byte a stored value becomes in the underlying `Uint8Array`
(ECMAScript `ToUint8`): `NaN` — modelled as `none`, the coercion of an
`undefined` sample — stores as 0; a nonnegative number is truncated
modulo 256. -/
def toByte : Option ℚ → Nat
  | none => 0
  | some v => Int.toNat ⌊v⌋ % 256

/-- Node's `checkInt` test on the value of `writeUInt8`: it rejects only a
numeric value outside [0, 255]; `NaN` compares false on both sides and
passes. -/
def u8ValBad : Option ℚ → Bool
  | none => false
  | some v => decide (255 < v ∨ v < 0)

/-- Node's `buf.readUInt8(offset)`: throws on a fractional or out-of-range
offset, else returns the byte. -/
def readUInt8 (buf : List Nat) (offset : ℚ) : Except JsErr Nat :=
  if isIdx offset buf.length = false then Except.error JsErr.offsetOutOfRange
  else Except.ok (buf.getD (Int.toNat offset.num) 0)

/-- Node's `buf.writeUInt8(value, offset)`. -/
def writeUInt8 (buf : List Nat) (value : Option ℚ) (offset : ℚ) :
    Except JsErr (List Nat) :=
  if u8ValBad value = true then Except.error JsErr.valueOutOfRange
  else if isIdx offset buf.length = false then Except.error JsErr.offsetOutOfRange
  else Except.ok (buf.set (Int.toNat offset.num) (toByte value))

/-- The four little-endian bytes of `n` stored at `off`, ..., `off + 3`. -/
def le32set (buf : List Nat) (off : Nat) (n : Nat) : List Nat :=
  (((buf.set off (n % 256)).set (off + 1) (n / 256 % 256)).set
      (off + 2) (n / 65536 % 256)).set (off + 3) (n / 16777216 % 256)

/-- The two little-endian bytes of `n` stored at `off`, `off + 1`. -/
def le16set (buf : List Nat) (off : Nat) (n : Nat) : List Nat :=
  (buf.set off (n % 256)).set (off + 1) (n / 256 % 256)

/-- Node's `buf.writeUInt32LE(value, offset)`: `checkInt` range check (a
fractional in-range value passes and is truncated by the `>>>` stores), bounds
check over the four target bytes, little-endian store. -/
def writeUInt32LE (buf : List Nat) (value offset : ℚ) : Except JsErr (List Nat) :=
  if value < 0 ∨ 4294967295 < value then Except.error JsErr.valueOutOfRange
  else if (decide (offset.den = 1 ∧ 0 ≤ offset.num ∧
      offset.num + 3 < (buf.length : ℤ))) = false then
    Except.error JsErr.offsetOutOfRange
  else Except.ok (le32set buf (Int.toNat offset.num) (Int.toNat ⌊value⌋))

/-- Node's `buf.writeInt32LE(value, offset)`; the stored bytes are those of the
value's two's complement (`ToUint32`). -/
def writeInt32LE (buf : List Nat) (value offset : ℚ) : Except JsErr (List Nat) :=
  if value < -2147483648 ∨ 2147483647 < value then Except.error JsErr.valueOutOfRange
  else if (decide (offset.den = 1 ∧ 0 ≤ offset.num ∧
      offset.num + 3 < (buf.length : ℤ))) = false then
    Except.error JsErr.offsetOutOfRange
  else Except.ok (le32set buf (Int.toNat offset.num) (Int.toNat (⌊value⌋ % 4294967296)))

/-- Node's `buf.writeUInt16LE(value, offset)`. -/
def writeUInt16LE (buf : List Nat) (value offset : ℚ) : Except JsErr (List Nat) :=
  if value < 0 ∨ 65535 < value then Except.error JsErr.valueOutOfRange
  else if (decide (offset.den = 1 ∧ 0 ≤ offset.num ∧
      offset.num + 1 < (buf.length : ℤ))) = false then
    Except.error JsErr.offsetOutOfRange
  else Except.ok (le16set buf (Int.toNat offset.num) (Int.toNat ⌊value⌋))

/-! ### BMP encoder: the `BMPEncoder` class -/

/-- The `BMPEncoder` instance state: the constructor arguments and the derived
row-padding fields (`bmp.js` lines 38-46). -/
structure BMPEncoder where
  width : Nat
  height : Nat
  bitsPerPixel : Nat
  padding : ℚ
  paddedWidthBytes : ℚ
deriving Repr, DecidableEq

/-- The `BMPEncoder` constructor (`bmp.js` lines 33-47): rejects an unsupported
bit depth immediately, before any pixel data exists, else computes
`rowBytes = width * (bitsPerPixel / 8)`, `padding = (4 - rowBytes % 4) % 4` and
`paddedWidthBytes = Math.ceil(rowBytes) + padding`. -/
def mkBMPEncoder (width height bitsPerPixel : Nat) : Except JsErr BMPEncoder :=
  if (([1, 24] : List Nat).contains bitsPerPixel) = false then
    Except.error JsErr.unsupportedDepth
  else
    let rowBytes : ℚ := (width : ℚ) * ((bitsPerPixel : ℚ) / 8)
    let padding := jsMod (4 - jsMod rowBytes 4) 4
    Except.ok ⟨width, height, bitsPerPixel, padding, ((⌈rowBytes⌉ : ℤ) : ℚ) + padding⟩

/-- The number of iterations of the JavaScript loop
`for (let p = 0; p < padding; p++)` for a nonnegative bound: `⌈padding⌉`. -/
def padIters (padding : ℚ) : Nat := Int.toNat ⌈padding⌉

/-- `BMPEncoder.createHeader` (`bmp.js` lines 82-124), write for write; the
`header.write("BM", ...)` signature is the two in-bounds byte stores 66, 77. -/
def BMPEncoder.createHeader (e : BMPEncoder) : Except JsErr (List Nat) := do
  let headerSize : Nat := if e.bitsPerPixel = 1 then 62 else 54
  let fileSize : ℚ := (headerSize : ℚ) + (e.height : ℚ) * e.paddedWidthBytes
  let header ← bufferAlloc (headerSize : ℚ)
  let header := (header.set 0 66).set 1 77
  let header ← writeUInt32LE header fileSize 2
  let header ← writeUInt32LE header 0 6
  let header ← writeUInt32LE header (headerSize : ℚ) 10
  let header ← writeUInt32LE header 40 14
  let header ← writeInt32LE header (e.width : ℚ) 18
  let header ← writeInt32LE header (e.height : ℚ) 22
  let header ← writeUInt16LE header 1 26
  let header ← writeUInt16LE header (e.bitsPerPixel : ℚ) 28
  let header ← writeUInt32LE header 0 30
  let imageSize : ℚ := (e.width : ℚ) * (e.height : ℚ) * ((e.bitsPerPixel : ℚ) / 8)
  let header ← writeUInt32LE header imageSize 34
  let header ← writeInt32LE header 0 38
  let header ← writeInt32LE header 0 42
  let paletteSize : Nat := if e.bitsPerPixel = 1 then 2 else 0
  let header ← writeUInt32LE header (paletteSize : ℚ) 46
  let header ← writeUInt32LE header (paletteSize : ℚ) 50
  if e.bitsPerPixel = 1 then do
    let header ← writeUInt32LE header 0 54
    let header ← writeUInt32LE header 16777215 58
    pure header
  else
    pure header

/-- One iteration of the inner 1-bit packing loop of `createPixelData`
(`bmp.js` lines 140-153): read the current byte at
`(height - 1 - y) * paddedWidthBytes + Math.floor(x / 8)`, set bit `7 - x % 8`
if the sample equals 0xFF, clear it otherwise (the 32-bit `& ~mask` on a byte
equals masking with `0xFFFFFFFF ^^^ mask`), and write the byte back. -/
def pack1Pixel (e : BMPEncoder) (imageData : List Nat) (y x : Nat)
    (pixelData : List Nat) : Except JsErr (List Nat) := do
  let pixel := jsIndex imageData (y * e.width + x)
  let byteIndex : ℚ :=
    ((e.height - 1 - y : ℕ) : ℚ) * e.paddedWidthBytes + ((x / 8 : ℕ) : ℚ)
  let bitIndex := x % 8
  let currentByte ← readUInt8 pixelData byteIndex
  if pixel = some 255 then
    writeUInt8 pixelData
      (some ((currentByte ||| (1 <<< (7 - bitIndex)) : ℕ) : ℚ)) byteIndex
  else
    writeUInt8 pixelData
      (some ((currentByte &&& (4294967295 ^^^ (1 <<< (7 - bitIndex))) : ℕ) : ℚ)) byteIndex

/-- One padding iteration of `createPixelData`: `pixelData.writeUInt8(0, offset++)`. -/
def padStep (a : List Nat × Nat) (_ : Nat) : Except JsErr (List Nat × Nat) := do
  let pd ← writeUInt8 a.1 (some 0) ((a.2 : ℕ) : ℚ)
  pure (pd, a.2 + 1)

/-- One full input row `y` of the 1-bit loop (`bmp.js` lines 139-160): pack the
`width` pixels, advance the running offset by `Math.ceil(width / 8)` and write
the row's padding zero bytes there. -/
def pack1Row (e : BMPEncoder) (imageData : List Nat)
    (acc : List Nat × Nat) (y : Nat) : Except JsErr (List Nat × Nat) := do
  let pixelData ← (List.range e.width).foldlM
    (fun pd x => pack1Pixel e imageData y x pd) acc.1
  let offset := acc.2 + Int.toNat ⌈(e.width : ℚ) / 8⌉
  (List.range (padIters e.padding)).foldlM padStep (pixelData, offset)

/-- One pixel of the 24-bit loop (`bmp.js` lines 165-176): read the RGB
samples (`undefined` past the end of the source) and store them in BGR order
at the running offset. -/
def pack24Pixel (e : BMPEncoder) (imageData : List Nat) (y : Nat)
    (acc : List Nat × Nat) (x : Nat) : Except JsErr (List Nat × Nat) := do
  let sourceIndex := (y * e.width + x) * 3
  let r := jsIndex imageData sourceIndex
  let g := jsIndex imageData (sourceIndex + 1)
  let b := jsIndex imageData (sourceIndex + 2)
  let pd ← writeUInt8 acc.1 (Option.map (fun n => ((n : ℕ) : ℚ)) b) ((acc.2 : ℕ) : ℚ)
  let pd ← writeUInt8 pd (Option.map (fun n => ((n : ℕ) : ℚ)) g) ((acc.2 + 1 : ℕ) : ℚ)
  let pd ← writeUInt8 pd (Option.map (fun n => ((n : ℕ) : ℚ)) r) ((acc.2 + 2 : ℕ) : ℚ)
  pure (pd, acc.2 + 3)

/-- One row `y` of the 24-bit loop (`bmp.js` lines 164-182), followed by the
row's padding zero bytes. -/
def pack24Row (e : BMPEncoder) (imageData : List Nat)
    (acc : List Nat × Nat) (y : Nat) : Except JsErr (List Nat × Nat) := do
  let acc ← (List.range e.width).foldlM (pack24Pixel e imageData y) acc
  (List.range (padIters e.padding)).foldlM padStep acc

/-- `BMPEncoder.createPixelData` (`bmp.js` lines 133-186): allocate
`height * paddedWidthBytes` zero bytes, then run the per-depth packing loop;
the 1-bit loop walks input rows top to bottom writing output rows bottom to
top, the 24-bit loop walks input rows bottom to top (`y = height-1; y >= 0`)
writing forward. -/
def BMPEncoder.createPixelData (e : BMPEncoder) (imageData : List Nat) :
    Except JsErr (List Nat) := do
  let pixelData ← bufferAlloc ((e.height : ℚ) * e.paddedWidthBytes)
  if e.bitsPerPixel = 1 then do
    let acc ← (List.range e.height).foldlM (pack1Row e imageData) (pixelData, 0)
    pure acc.1
  else if e.bitsPerPixel = 24 then do
    let acc ← ((List.range e.height).reverse).foldlM
      (pack24Row e imageData) (pixelData, 0)
    pure acc.1
  else
    pure pixelData

/-- `BMPEncoder.encode` (`bmp.js` lines 54-58): header, then pixel data, then
`Buffer.concat`. -/
def BMPEncoder.encode (e : BMPEncoder) (data : List Nat) : Except JsErr (List Nat) := do
  let header ← e.createHeader
  let pixelData ← e.createPixelData data
  pure (header ++ pixelData)

/-- `new BMPEncoder(width, height, bitsPerPixel).encode(data)`. -/
def bmpEncode (width height bitsPerPixel : Nat) (data : List Nat) :
    Except JsErr (List Nat) := do
  let e ← mkBMPEncoder width height bitsPerPixel
  e.encode data


/-- The byte the 1-bit packing loop stores for pixel `(x, y)` when the byte it
read back was `cb`: bit `7 - x % 8` is set when the sample equals 0xFF and
cleared otherwise. -/
def packWrite (data : List Nat) (w y x cb : Nat) : Nat :=
  if jsIndex data (y * w + x) = some 255 then cb ||| ((1 : Nat) <<< (7 - x % 8))
  else cb &&& (4294967295 ^^^ ((1 : Nat) <<< (7 - x % 8)))

/-- The integer padded row stride of 1-bit mode when `8 ∣ width`:
`rowBytes = width / 8` plus `(4 - rowBytes % 4) % 4` padding bytes. -/
def pWB1 (w : Nat) : Nat := w / 8 + (4 - (w / 8) % 4) % 4

/-- The integer padded row stride of 24-bit mode:
`rowBytes = 3 * width` plus `(4 - rowBytes % 4) % 4` padding bytes. -/
def pWB24 (w : Nat) : Nat := 3 * w + (4 - (3 * w) % 4) % 4

/-- The little-endian 32-bit value stored at bytes `i`, ..., `i + 3`. -/
def leRead32 (l : List Nat) (i : Nat) : Nat :=
  l.getD i 0 + 256 * l.getD (i + 1) 0 + 65536 * l.getD (i + 2) 0 +
    16777216 * l.getD (i + 3) 0

/-- The bit the 1-bit packing loop stores for the sample of pixel `(x, y)`:
1 exactly when the sample exists and equals 0xFF. -/
def pixelBit (data : List Nat) (w y x : Nat) : Bool :=
  decide (jsIndex data (y * w + x) = some 255)

/-! ### Floyd-Steinberg error diffusion

Modelled from the spec: `applyDithering` requests Floyd-Steinberg error
diffusion from the external GraphicsMagick engine with `image.dither(true)`
(`lib/dithering.js` lines 137-162); the kernel itself runs inside
GraphicsMagick and is not part of this repository's sources, so it is modelled
here from the specification's algorithm paragraph. -/

/-- Modelled from the spec: quantize a value to the nearest of the target
levels (the first level wins a tie in the fold below). -/
def nearestLevel (levels : List ℚ) (v : ℚ) : ℚ :=
  match levels with
  | [] => v
  | l :: ls => ls.foldl (fun best c => if |v - c| < |v - best| then c else best) l

/-- Add `amt` to cell `i` when `active`; an inactive (out-of-bounds) target
drops its share of the error. -/
def diffuseAt (st : List ℚ) (i : Nat) (active : Bool) (amt : ℚ) : List ℚ :=
  if active then st.set i (st.getD i 0 + amt) else st

/-- Modelled from the spec: one Floyd-Steinberg step at raster index `idx`
(`x = idx % w`, `y = idx / w`): quantize the current error-adjusted value to
the nearest target level, then propagate the quantization error to the four
not-yet-visited neighbours with weights 7/16 (right), 3/16 (below left),
5/16 (below), 1/16 (below right), dropping out-of-bounds shares. -/
def fsStep (w h : Nat) (levels : List ℚ) (st : List ℚ) (idx : Nat) : List ℚ :=
  let x := idx % w
  let y := idx / w
  let old := st.getD idx 0
  let q := nearestLevel levels old
  let err := old - q
  let st := st.set idx q
  let st := diffuseAt st (idx + 1) (decide (x + 1 < w)) (err * (7 / 16))
  let st := diffuseAt st (idx + w - 1) (decide (0 < x ∧ y + 1 < h)) (err * (3 / 16))
  let st := diffuseAt st (idx + w) (decide (y + 1 < h)) (err * (5 / 16))
  let st := diffuseAt st (idx + w + 1) (decide (x + 1 < w ∧ y + 1 < h)) (err * (1 / 16))
  st

/-- Modelled from the spec: the full Floyd-Steinberg pass, processing pixels in
raster order (left to right, top to bottom). -/
def fsDither (w h : Nat) (levels : List ℚ) (img : List ℚ) : List ℚ :=
  (List.range (w * h)).foldl (fsStep w h levels) img

/-! ### Theorems about the dithering engine -/

/-- C1: identity fast path.  For every input byte buffer and every backend,
`applyDithering(x, {method: "none", bitDepth: 8, blackLevel: 0, whiteLevel: 100})`
returns exactly the input bytes.  The quantification over the backend shows that
no decode or re-encode happens: the external engine is never consulted. -/
theorem identity_fast_path (backend : GMBackend) (data : List Nat) :
    applyDithering backend (DitherInput.buffer data) identityOptions =
      Except.ok data := rfl

/-- C2: option validation.  For every input buffer, every backend and every
options record whose effective (defaulted) values have an unknown method, a bit
depth outside {1,2,4,8}, a level outside [0,100], or black level ≥ white level,
`applyDithering` fails with one of the `InvalidOption` errors.  The result is
the same for every backend, so no processing starts, and the levels are never
clamped. -/
theorem invalid_options_rejected (backend : GMBackend) (data : List Nat)
    (options : DitherOptions)
    (h : (["floyd-steinberg", "ordered", "none"].contains
            (options.method.getD "floyd-steinberg")) = false ∨
         (([1, 2, 4, 8] : List Int).contains (options.bitDepth.getD 4)) = false ∨
         options.blackLevel.getD 0 < 0 ∨ 100 < options.blackLevel.getD 0 ∨
         options.whiteLevel.getD 100 < 0 ∨ 100 < options.whiteLevel.getD 100 ∨
         options.whiteLevel.getD 100 ≤ options.blackLevel.getD 0) :
    ∃ e, applyDithering backend (DitherInput.buffer data) options =
        Except.error e ∧ e.isInvalidOption = true := by
  have hred : applyDithering backend (DitherInput.buffer data) options =
      (if (["floyd-steinberg", "ordered", "none"].contains
            (options.method.getD "floyd-steinberg")) = false then
        Except.error (DitherError.invalidMethod (options.method.getD "floyd-steinberg"))
      else if (([1, 2, 4, 8] : List Int).contains (options.bitDepth.getD 4)) = false then
        Except.error (DitherError.invalidBitDepth (options.bitDepth.getD 4))
      else if options.blackLevel.getD 0 < 0 ∨ 100 < options.blackLevel.getD 0 ∨
          options.whiteLevel.getD 100 < 0 ∨ 100 < options.whiteLevel.getD 100 then
        Except.error DitherError.invalidLevelRange
      else if options.whiteLevel.getD 100 ≤ options.blackLevel.getD 0 then
        Except.error DitherError.invalidLevelOrder
      else if options.method.getD "floyd-steinberg" = "none" ∧
          options.bitDepth.getD 4 = 8 ∧ options.blackLevel.getD 0 = 0 ∧
          options.whiteLevel.getD 100 = 100 then
        Except.ok data
      else
        match backend (buildPipeline (options.method.getD "floyd-steinberg")
            (options.bitDepth.getD 4) (options.gammaCorrection.getD true)
            (options.blackLevel.getD 0) (options.whiteLevel.getD 100)) data with
        | Except.ok result => Except.ok result
        | Except.error msg => Except.error (DitherError.processingFailed msg)) := rfl
  rw [hred]
  split_ifs with h1 h2 h3 h4 h5
  · exact ⟨_, rfl, rfl⟩
  · exact ⟨_, rfl, rfl⟩
  · exact ⟨_, rfl, rfl⟩
  · exact ⟨_, rfl, rfl⟩
  all_goals exfalso
  all_goals rcases h with h | h | h | h | h | h | h
  · exact h1 h
  · exact h2 h
  · exact h3 (Or.inl h)
  · exact h3 (Or.inr (Or.inl h))
  · exact h3 (Or.inr (Or.inr (Or.inl h)))
  · exact h3 (Or.inr (Or.inr (Or.inr h)))
  · exact h4 h
  · exact h1 h
  · exact h2 h
  · exact h3 (Or.inl h)
  · exact h3 (Or.inr (Or.inl h))
  · exact h3 (Or.inr (Or.inr (Or.inl h)))
  · exact h3 (Or.inr (Or.inr (Or.inr h)))
  · exact h4 h

/-- Witness for C2 at a concrete invalid input: `bitDepth = 3` is rejected. -/
theorem invalid_options_rejected_witness :
    ∃ e, applyDithering (fun _ b => Except.ok b) (DitherInput.buffer [1, 2, 3])
        ⟨none, some 3, none, none, none⟩ = Except.error e ∧ e.isInvalidOption = true :=
  invalid_options_rejected (fun _ b => Except.ok b) [1, 2, 3]
    ⟨none, some 3, none, none, none⟩ (Or.inr (Or.inl (by decide)))

/-- C8 counterexample: the claim says an empty buffer fails with `InvalidInput`,
but an empty buffer passes the only upfront input check (`Buffer.isBuffer`);
with the identity options it is even returned unchanged, for this concrete
backend as for any other. -/
theorem empty_buffer_not_rejected :
    applyDithering (fun _ _ => Except.ok [0]) (DitherInput.buffer []) identityOptions =
      Except.ok [] := rfl

/-- C8 amended: only a non-`Buffer` input is rejected up front with the
`InvalidInput` error (`imageBuffer must be a Buffer`), before any processing
(for every backend and options record); an empty buffer is not rejected — with
the identity options it is returned unchanged — and an undecodable buffer only
fails later, inside processing, where a backend failure surfaces as
`ProcessingFailed` rather than `InvalidInput`. -/
theorem input_validation_amended :
    (∀ (backend : GMBackend) (options : DitherOptions),
        applyDithering backend DitherInput.nonBuffer options =
          Except.error DitherError.notABuffer) ∧
    (∀ backend : GMBackend,
        applyDithering backend (DitherInput.buffer []) identityOptions =
          Except.ok []) ∧
    (∀ (backend : GMBackend) (data : List Nat) (msg : String),
        backend (buildPipeline "floyd-steinberg" 4 true 0 100) data =
            Except.error msg →
          applyDithering backend (DitherInput.buffer data) emptyOptions =
            Except.error (DitherError.processingFailed msg)) := by
  refine ⟨fun backend options => rfl, fun backend => rfl, fun backend data msg h => ?_⟩
  show (match backend (buildPipeline "floyd-steinberg" 4 true 0 100) data with
      | Except.ok result => Except.ok result
      | Except.error msg => Except.error (DitherError.processingFailed msg)) =
    Except.error (DitherError.processingFailed msg)
  rw [h]

/-- C10: implicit defaulting.  With the empty options record, `applyDithering`
fills in `method = "floyd-steinberg"`, `bitDepth = 4`, `gammaCorrection = true`,
`blackLevel = 0`, `whiteLevel = 100`: it does not take the identity fast path
but hands the backend the Floyd-Steinberg 4-bit pipeline
(`noProfile`, grayscale, `dither(true)`, `colors(16)`, no `level` step) and
returns the backend's re-encoded output (or its failure wrapped as
`ProcessingFailed`). -/
theorem default_options_processing (backend : GMBackend) (data : List Nat) :
    applyDithering backend (DitherInput.buffer data) emptyOptions =
      match backend [GMOp.noProfile, GMOp.colorspaceGray, GMOp.dither true,
          GMOp.colors 16] data with
      | Except.ok result => Except.ok result
      | Except.error msg => Except.error (DitherError.processingFailed msg) := rfl

/-! ### Bridge lemmas for the JavaScript number and Buffer model -/

/-! ### Bridge lemmas for the JavaScript number and Buffer model -/

theorem jsMod_natCast (n m : Nat) :
    jsMod ((n : ℕ) : ℚ) ((m : ℕ) : ℚ) = ((n % m : ℕ) : ℚ) := by
  unfold jsMod
  have key : ⌊((n : ℕ) : ℚ) / ((m : ℕ) : ℚ)⌋ = ((n / m : ℕ) : ℤ) := by
    exact_mod_cast Rat.floor_natCast_div_natCast n m
  rw [key, Int.cast_natCast]
  have h := Nat.div_add_mod n m
  have h2 : ((m : ℕ) : ℚ) * ((n / m : ℕ) : ℚ) + ((n % m : ℕ) : ℚ) = ((n : ℕ) : ℚ) := by
    exact_mod_cast congrArg (fun k => ((k : ℕ) : ℚ)) h
  linarith

theorem jsMod_pad (r : Nat) :
    jsMod (4 - jsMod ((r : ℕ) : ℚ) 4) 4 = (((4 - r % 4) % 4 : ℕ) : ℚ) := by
  have h4 : ((4 : ℕ) : ℚ) = (4 : ℚ) := by norm_num
  rw [← h4, jsMod_natCast r 4]
  have hk : r % 4 ≤ 4 := le_of_lt (Nat.mod_lt r (by norm_num))
  have hsub : ((4 : ℕ) : ℚ) - ((r % 4 : ℕ) : ℚ) = (((4 - r % 4 : ℕ)) : ℚ) := by
    rw [Nat.cast_sub hk]
  rw [hsub, jsMod_natCast _ 4]

theorem isIdx_natCast (n len : Nat) : isIdx ((n : ℕ) : ℚ) len = decide (n < len) := by
  unfold isIdx
  rw [decide_eq_decide, Rat.den_natCast, Rat.num_natCast]
  constructor
  · rintro ⟨-, -, h⟩
    exact_mod_cast h
  · intro h
    exact ⟨rfl, Int.natCast_nonneg n, by exact_mod_cast h⟩

theorem toByte_natCast (v : Nat) : toByte (some ((v : ℕ) : ℚ)) = v % 256 := by
  show ⌊((v : ℕ) : ℚ)⌋.toNat % 256 = v % 256
  rw [Int.floor_natCast, Int.toNat_natCast]

theorem u8ValBad_natCast (v : Nat) (hv : v ≤ 255) :
    u8ValBad (some ((v : ℕ) : ℚ)) = false := by
  show decide (255 < ((v : ℕ) : ℚ) ∨ ((v : ℕ) : ℚ) < 0) = false
  rw [decide_eq_false_iff_not]
  rintro (h | h)
  · have h2 : ((255 : ℕ) : ℚ) < ((v : ℕ) : ℚ) := by exact_mod_cast h
    have : (255 : ℕ) < v := by exact_mod_cast h2
    omega
  · have h2 : (0 : ℚ) ≤ ((v : ℕ) : ℚ) := Nat.cast_nonneg v
    linarith

theorem writeUInt8_natCast (buf : List Nat) (v off : Nat) (hv : v ≤ 255)
    (hoff : off < buf.length) :
    writeUInt8 buf (some ((v : ℕ) : ℚ)) ((off : ℕ) : ℚ) =
      Except.ok (buf.set off v) := by
  unfold writeUInt8
  rw [u8ValBad_natCast v hv, isIdx_natCast, decide_eq_true hoff]
  simp only [Bool.false_eq_true, if_false, Bool.true_eq_false, Rat.num_natCast,
    Int.toNat_natCast, toByte_natCast]
  rw [Nat.mod_eq_of_lt (by omega)]

theorem writeUInt8_none (buf : List Nat) (off : Nat) (hoff : off < buf.length) :
    writeUInt8 buf none ((off : ℕ) : ℚ) = Except.ok (buf.set off 0) := by
  unfold writeUInt8
  rw [isIdx_natCast, decide_eq_true hoff]
  show (if (false = true) then _ else if (true = false) then _ else
    Except.ok (buf.set ((off : ℤ) : ℤ).toNat (toByte none))) = Except.ok (buf.set off 0)
  rw [if_neg (by simp), if_neg (by simp), Int.toNat_natCast]
  rfl

theorem writeUInt8_byteOpt (buf : List Nat) (v : Option Nat) (off : Nat)
    (hv : ∀ n, v = some n → n ≤ 255) (hoff : off < buf.length) :
    writeUInt8 buf (v.map fun n => ((n : ℕ) : ℚ)) ((off : ℕ) : ℚ) =
      Except.ok (buf.set off (v.getD 0)) := by
  cases v with
  | none => exact writeUInt8_none buf off hoff
  | some n =>
    show writeUInt8 buf (some ((n : ℕ) : ℚ)) ((off : ℕ) : ℚ) =
      Except.ok (buf.set off n)
    exact writeUInt8_natCast buf n off (hv n rfl) hoff

theorem readUInt8_natCast (buf : List Nat) (off : Nat) (hoff : off < buf.length) :
    readUInt8 buf ((off : ℕ) : ℚ) = Except.ok (buf.getD off 0) := by
  unfold readUInt8
  rw [isIdx_natCast, decide_eq_true hoff]
  rw [if_neg (by simp), Rat.num_natCast, Int.toNat_natCast]

theorem bufferAlloc_natCast (n : Nat) :
    bufferAlloc ((n : ℕ) : ℚ) = Except.ok (List.replicate n 0) := by
  unfold bufferAlloc
  rw [if_neg (not_lt.mpr (Nat.cast_nonneg n)), Int.floor_natCast, Int.toNat_natCast]

theorem offGuard (off len : Nat) (k : ℤ) (h : (off : ℤ) + k < (len : ℤ)) :
    decide ((((off : ℕ) : ℚ)).den = 1 ∧ 0 ≤ (((off : ℕ) : ℚ)).num ∧
      (((off : ℕ) : ℚ)).num + k < (len : ℤ)) = true := by
  rw [decide_eq_true_eq, Rat.den_natCast, Rat.num_natCast]
  exact ⟨rfl, Int.natCast_nonneg off, h⟩

theorem natCast_nonneg_q (n : Nat) : ¬ (((n : ℕ) : ℚ) < 0) :=
  not_lt.mpr (Nat.cast_nonneg n)

theorem natCast_le_q {a b : Nat} (h : a ≤ b) : ¬ ((b : ℚ) < ((a : ℕ) : ℚ)) := by
  rw [not_lt]
  exact_mod_cast h

theorem writeUInt32LE_natCast (buf : List Nat) (n off : Nat)
    (hn : n ≤ 4294967295) (hoff : off + 3 < buf.length) :
    writeUInt32LE buf ((n : ℕ) : ℚ) ((off : ℕ) : ℚ) =
      Except.ok (le32set buf off n) := by
  unfold writeUInt32LE
  rw [if_neg, offGuard off buf.length 3 (by exact_mod_cast hoff), if_neg (by simp)]
  · rw [Rat.num_natCast, Int.toNat_natCast, Int.floor_natCast, Int.toNat_natCast]
  · rintro (h | h)
    · exact natCast_nonneg_q n h
    · exact natCast_le_q hn (by exact_mod_cast h)

theorem writeInt32LE_natCast (buf : List Nat) (n off : Nat)
    (hn : n ≤ 2147483647) (hoff : off + 3 < buf.length) :
    writeInt32LE buf ((n : ℕ) : ℚ) ((off : ℕ) : ℚ) =
      Except.ok (le32set buf off n) := by
  unfold writeInt32LE
  rw [if_neg, offGuard off buf.length 3 (by exact_mod_cast hoff), if_neg (by simp)]
  · rw [Rat.num_natCast, Int.toNat_natCast, Int.floor_natCast]
    rw [Int.emod_eq_of_lt (Int.natCast_nonneg n)
      (by exact_mod_cast Nat.lt_of_le_of_lt hn (by norm_num) : (n : ℤ) < 4294967296)]
    rw [Int.toNat_natCast]
  · rintro (h | h)
    · have h2 : (0 : ℚ) ≤ ((n : ℕ) : ℚ) := Nat.cast_nonneg n
      linarith
    · exact natCast_le_q hn (by exact_mod_cast h)

theorem writeUInt16LE_natCast (buf : List Nat) (n off : Nat)
    (hn : n ≤ 65535) (hoff : off + 1 < buf.length) :
    writeUInt16LE buf ((n : ℕ) : ℚ) ((off : ℕ) : ℚ) =
      Except.ok (le16set buf off n) := by
  unfold writeUInt16LE
  rw [if_neg, offGuard off buf.length 1 (by exact_mod_cast hoff), if_neg (by simp)]
  · rw [Rat.num_natCast, Int.toNat_natCast, Int.floor_natCast, Int.toNat_natCast]
  · rintro (h | h)
    · exact natCast_nonneg_q n h
    · exact natCast_le_q hn (by exact_mod_cast h)

theorem getD_set (l : List Nat) (i j a : Nat) :
    (l.set i a).getD j 0 = if i = j ∧ i < l.length then a else l.getD j 0 := by
  rw [List.getD_eq_getElem?_getD, List.getD_eq_getElem?_getD, List.getElem?_set]
  by_cases hij : i = j
  · subst hij
    by_cases hi : i < l.length
    · simp [hi]
    · simp [hi, List.getElem?_eq_none (by omega : l.length ≤ i)]
  · simp [hij]

theorem getD_set_ne (l : List Nat) (i j a : Nat) (h : i ≠ j) :
    (l.set i a).getD j 0 = l.getD j 0 := by
  rw [getD_set, if_neg]
  rintro ⟨he, -⟩
  exact h he

theorem getD_set_self (l : List Nat) (i a : Nat) (h : i < l.length) :
    (l.set i a).getD i 0 = a := by
  rw [getD_set, if_pos ⟨rfl, h⟩]

theorem le32set_length (buf : List Nat) (off n : Nat) :
    (le32set buf off n).length = buf.length := by
  simp [le32set]

theorem le16set_length (buf : List Nat) (off n : Nat) :
    (le16set buf off n).length = buf.length := by
  simp [le16set]

theorem getD_le32set_out (buf : List Nat) (off n j : Nat) (h : j < off ∨ off + 3 < j) :
    (le32set buf off n).getD j 0 = buf.getD j 0 := by
  unfold le32set
  rw [getD_set_ne _ _ _ _ (by omega), getD_set_ne _ _ _ _ (by omega),
    getD_set_ne _ _ _ _ (by omega), getD_set_ne _ _ _ _ (by omega)]

theorem getD_le32set_b0 (buf : List Nat) (off n j : Nat) (hj : j = off)
    (h : off < buf.length) : (le32set buf off n).getD j 0 = n % 256 := by
  subst hj
  unfold le32set
  rw [getD_set_ne _ _ _ _ (by omega), getD_set_ne _ _ _ _ (by omega),
    getD_set_ne _ _ _ _ (by omega), getD_set_self _ _ _ h]

theorem getD_le32set_b1 (buf : List Nat) (off n j : Nat) (hj : j = off + 1)
    (h : off + 1 < buf.length) : (le32set buf off n).getD j 0 = n / 256 % 256 := by
  subst hj
  unfold le32set
  rw [getD_set_ne _ _ _ _ (by omega), getD_set_ne _ _ _ _ (by omega),
    getD_set_self _ _ _ (by rw [List.length_set]; omega)]

theorem getD_le32set_b2 (buf : List Nat) (off n j : Nat) (hj : j = off + 2)
    (h : off + 2 < buf.length) : (le32set buf off n).getD j 0 = n / 65536 % 256 := by
  subst hj
  unfold le32set
  rw [getD_set_ne _ _ _ _ (by omega),
    getD_set_self _ _ _ (by rw [List.length_set, List.length_set]; omega)]

theorem getD_le32set_b3 (buf : List Nat) (off n j : Nat) (hj : j = off + 3)
    (h : off + 3 < buf.length) : (le32set buf off n).getD j 0 = n / 16777216 % 256 := by
  subst hj
  unfold le32set
  rw [getD_set_self _ _ _
    (by rw [List.length_set, List.length_set, List.length_set]; omega)]

theorem getD_le16set_out (buf : List Nat) (off n j : Nat) (h : j < off ∨ off + 1 < j) :
    (le16set buf off n).getD j 0 = buf.getD j 0 := by
  unfold le16set
  rw [getD_set_ne _ _ _ _ (by omega), getD_set_ne _ _ _ _ (by omega)]

theorem getD_le16set_b0 (buf : List Nat) (off n j : Nat) (hj : j = off)
    (h : off < buf.length) : (le16set buf off n).getD j 0 = n % 256 := by
  subst hj
  unfold le16set
  rw [getD_set_ne _ _ _ _ (by omega), getD_set_self _ _ _ h]

theorem getD_le16set_b1 (buf : List Nat) (off n j : Nat) (hj : j = off + 1)
    (h : off + 1 < buf.length) : (le16set buf off n).getD j 0 = n / 256 % 256 := by
  subst hj
  unfold le16set
  rw [getD_set_self _ _ _ (by rw [List.length_set]; omega)]

theorem exBind_ok {ε α β : Type} (a : α) (f : α → Except ε β) :
    (Except.ok a : Except ε α) >>= f = f a := rfl

theorem castAdd (a b : Nat) : ((a : ℕ) : ℚ) + ((b : ℕ) : ℚ) = ((a + b : ℕ) : ℚ) := by
  push_cast
  ring

theorem padIters_natCast (n : Nat) : padIters ((n : ℕ) : ℚ) = n := by
  unfold padIters
  rw [Int.ceil_natCast, Int.toNat_natCast]

theorem ceilDiv8_eq (m : Nat) : Int.toNat ⌈((8 * m : ℕ) : ℚ) / 8⌉ = m := by
  have h : ((8 * m : ℕ) : ℚ) / 8 = ((m : ℕ) : ℚ) := by push_cast; ring
  rw [h, Int.ceil_natCast, Int.toNat_natCast]

theorem getD_mem (l : List Nat) (i : Nat) (h : i < l.length) : l.getD i 0 ∈ l := by
  rw [List.getD_eq_getElem l 0 h]
  exact List.getElem_mem h

theorem jsIndex_le (data : List Nat) (hb : ∀ b ∈ data, b ≤ 255) (i : Nat) :
    ∀ n, jsIndex data i = some n → n ≤ 255 := by
  intro n hn
  unfold jsIndex at hn
  by_cases hi : i < data.length
  · rw [if_pos hi] at hn
    cases hn
    exact hb _ (getD_mem data i hi)
  · rw [if_neg hi] at hn
    cases hn

theorem writeUInt8_zeroQ (buf : List Nat) (off : Nat) (hoff : off < buf.length) :
    writeUInt8 buf (some 0) ((off : ℕ) : ℚ) = Except.ok (buf.set off 0) := by
  have h0 : ((0 : ℕ) : ℚ) = (0 : ℚ) := by norm_num
  rw [← h0]
  exact writeUInt8_natCast buf 0 off (by norm_num) hoff

theorem mkBMPEncoder_24 (w h : Nat) :
    mkBMPEncoder w h 24 = Except.ok ⟨w, h, 24,
      (((4 - (3 * w) % 4) % 4 : ℕ) : ℚ),
      ((3 * w : ℕ) : ℚ) + (((4 - (3 * w) % 4) % 4 : ℕ) : ℚ)⟩ := by
  have hrow : (w : ℚ) * (((24 : ℕ) : ℚ) / 8) = ((3 * w : ℕ) : ℚ) := by push_cast; ring
  show Except.ok (⟨w, h, 24, jsMod (4 - jsMod ((w : ℚ) * (((24 : ℕ) : ℚ) / 8)) 4) 4,
      ((⌈(w : ℚ) * (((24 : ℕ) : ℚ) / 8)⌉ : ℤ) : ℚ) +
        jsMod (4 - jsMod ((w : ℚ) * (((24 : ℕ) : ℚ) / 8)) 4) 4⟩ : BMPEncoder) = _
  rw [hrow, jsMod_pad (3 * w), Int.ceil_natCast, Int.cast_natCast]

theorem mkBMPEncoder_1 (m h : Nat) :
    mkBMPEncoder (8 * m) h 1 = Except.ok ⟨8 * m, h, 1,
      (((4 - m % 4) % 4 : ℕ) : ℚ),
      ((m : ℕ) : ℚ) + (((4 - m % 4) % 4 : ℕ) : ℚ)⟩ := by
  have hrow : ((8 * m : ℕ) : ℚ) * (((1 : ℕ) : ℚ) / 8) = ((m : ℕ) : ℚ) := by
    push_cast; ring
  show Except.ok (⟨8 * m, h, 1,
      jsMod (4 - jsMod (((8 * m : ℕ) : ℚ) * (((1 : ℕ) : ℚ) / 8)) 4) 4,
      ((⌈((8 * m : ℕ) : ℚ) * (((1 : ℕ) : ℚ) / 8)⌉ : ℤ) : ℚ) +
        jsMod (4 - jsMod (((8 * m : ℕ) : ℚ) * (((1 : ℕ) : ℚ) / 8)) 4) 4⟩ : BMPEncoder) = _
  rw [hrow, jsMod_pad m, Int.ceil_natCast, Int.cast_natCast]

theorem testBit_one_shift (j k : Nat) : ((1 : ℕ) <<< j).testBit k = decide (j = k) := by
  have h : (1 : ℕ) <<< j = 2 ^ j := by rw [Nat.shiftLeft_eq, one_mul]
  rw [h, Nat.testBit_two_pow]

theorem testBit_setBit (b j k : Nat) :
    (b ||| ((1 : ℕ) <<< j)).testBit k = (b.testBit k || decide (k = j)) := by
  rw [Nat.testBit_or, testBit_one_shift]
  by_cases hk : k = j
  · subst hk
    simp
  · rw [decide_eq_false (fun h => hk h.symm), decide_eq_false hk, Bool.or_false]

theorem testBit_clearBit (b j k : Nat) (hb : b < 256) (hj : j < 8) :
    (b &&& (4294967295 ^^^ ((1 : ℕ) <<< j))).testBit k =
      (b.testBit k && !(decide (k = j))) := by
  by_cases hk32 : k < 32
  · rw [Nat.testBit_and, Nat.testBit_xor, testBit_one_shift]
    have h32 : (4294967295 : ℕ) = 2 ^ 32 - 1 := by norm_num
    rw [h32, Nat.testBit_two_pow_sub_one, decide_eq_true hk32]
    by_cases hk : k = j
    · subst hk
      simp
    · rw [decide_eq_false (fun h => hk h.symm), decide_eq_false hk]
      simp
  · have hbk : b.testBit k = false :=
      Nat.testBit_lt_two_pow (lt_of_lt_of_le hb (by
        calc (256 : ℕ) = 2 ^ 8 := by norm_num
        _ ≤ 2 ^ k := Nat.pow_le_pow_right (by norm_num) (by omega)))
    have hband : (b &&& (4294967295 ^^^ ((1 : ℕ) <<< j))) < 2 ^ k :=
      lt_of_le_of_lt Nat.and_le_left (lt_of_lt_of_le hb (by
        calc (256 : ℕ) = 2 ^ 8 := by norm_num
        _ ≤ 2 ^ k := Nat.pow_le_pow_right (by norm_num) (by omega)))
    rw [Nat.testBit_lt_two_pow hband, hbk]
    rfl

theorem padFold (l : List Nat) (pd : List Nat) (off : Nat)
    (h : off + l.length ≤ pd.length) :
    ∃ pd2, l.foldlM padStep ((pd, off) : List Nat × Nat) =
        Except.ok (pd2, off + l.length) ∧
      pd2.length = pd.length ∧
      ∀ p, pd2.getD p 0 = if off ≤ p ∧ p < off + l.length then 0 else pd.getD p 0 := by
  induction l generalizing pd off with
  | nil =>
    refine ⟨pd, by simp only [List.foldlM_nil, List.length_nil, Nat.add_zero]; rfl,
      rfl, fun p => ?_⟩
    rw [List.length_nil, Nat.add_zero, if_neg (by omega)]
  | cons a t ih =>
    have hlen : t.length + 1 = (a :: t).length := by simp
    have hoff : off < pd.length := by simp at h; omega
    have hstep : padStep (pd, off) a = Except.ok (pd.set off 0, off + 1) := by
      show writeUInt8 pd (some 0) ((off : ℕ) : ℚ) >>=
        (fun pd2 => pure (pd2, off + 1)) = _
      rw [writeUInt8_zeroQ pd off hoff, exBind_ok]
      rfl
    obtain ⟨pd2, h1, h2, h3⟩ := ih (pd.set off 0) (off + 1)
      (by simp at h ⊢; omega)
    refine ⟨pd2, ?_, by rw [h2]; simp, fun p => ?_⟩
    · rw [List.foldlM_cons, hstep, exBind_ok, h1]
      have : off + 1 + t.length = off + (a :: t).length := by simp; omega
      rw [this]
    · rw [h3 p, getD_set]
      simp only [List.length_cons]
      by_cases hc1 : off + 1 ≤ p ∧ p < off + 1 + t.length
      · rw [if_pos hc1, if_pos (by omega)]
      · rw [if_neg hc1]
        by_cases hc2 : off = p ∧ off < pd.length
        · rw [if_pos hc2, if_pos (by omega)]
        · rw [if_neg hc2, if_neg (by omega)]

theorem pack24Pixel_spec (e : BMPEncoder) (data : List Nat) (y : Nat)
    (hb : ∀ b ∈ data, b ≤ 255) (pd : List Nat) (off x : Nat)
    (h : off + 3 ≤ pd.length) :
    ∃ pd2, pack24Pixel e data y ((pd, off) : List Nat × Nat) x =
        Except.ok (pd2, off + 3) ∧ pd2.length = pd.length := by
  unfold pack24Pixel
  dsimp only
  rw [writeUInt8_byteOpt pd _ off (jsIndex_le data hb _) (by omega), exBind_ok]
  rw [writeUInt8_byteOpt _ _ (off + 1) (jsIndex_le data hb _)
    (by rw [List.length_set]; omega), exBind_ok]
  rw [writeUInt8_byteOpt _ _ (off + 2) (jsIndex_le data hb _)
    (by rw [List.length_set, List.length_set]; omega), exBind_ok]
  exact ⟨_, rfl, by simp⟩

theorem pack24Fold (e : BMPEncoder) (data : List Nat) (y : Nat)
    (hb : ∀ b ∈ data, b ≤ 255) (l : List Nat) (pd : List Nat) (off : Nat)
    (h : off + 3 * l.length ≤ pd.length) :
    ∃ pd2, l.foldlM (pack24Pixel e data y) ((pd, off) : List Nat × Nat) =
        Except.ok (pd2, off + 3 * l.length) ∧ pd2.length = pd.length := by
  induction l generalizing pd off with
  | nil =>
    exact ⟨pd, by simp only [List.foldlM_nil, List.length_nil, Nat.mul_zero,
      Nat.add_zero]; rfl, rfl⟩
  | cons a t ih =>
    obtain ⟨pd1, hs, hl⟩ := pack24Pixel_spec e data y hb pd off a
      (by simp only [List.length_cons] at h; omega)
    obtain ⟨pd2, h1, h2⟩ := ih pd1 (off + 3)
      (by rw [hl]; simp only [List.length_cons] at h ⊢; omega)
    refine ⟨pd2, ?_, by rw [h2, hl]⟩
    rw [List.foldlM_cons, hs, exBind_ok, h1]
    have harith : off + 3 + 3 * t.length = off + 3 * (a :: t).length := by
      simp only [List.length_cons]; omega
    rw [harith]

theorem pack24Row_spec (w hgt padN : Nat) (q : ℚ) (data : List Nat)
    (hb : ∀ b ∈ data, b ≤ 255) (y : Nat) (pd : List Nat) (off : Nat)
    (h : off + (3 * w + padN) ≤ pd.length) :
    ∃ pd2, pack24Row ⟨w, hgt, 24, ((padN : ℕ) : ℚ), q⟩ data
        ((pd, off) : List Nat × Nat) y =
      Except.ok (pd2, off + (3 * w + padN)) ∧ pd2.length = pd.length := by
  unfold pack24Row
  dsimp only
  obtain ⟨pd1, h1, hl1⟩ := pack24Fold ⟨w, hgt, 24, ((padN : ℕ) : ℚ), q⟩ data y hb
    (List.range w) pd off (by rw [List.length_range]; omega)
  rw [List.length_range] at h1
  rw [h1, exBind_ok, padIters_natCast]
  obtain ⟨pd2, h2, hl2, -⟩ := padFold (List.range padN) pd1 (off + 3 * w)
    (by rw [List.length_range, hl1]; omega)
  rw [List.length_range] at h2
  rw [h2]
  exact ⟨pd2, by rw [Nat.add_assoc], by rw [hl2, hl1]⟩

theorem pack24Rows (w hgt padN : Nat) (q : ℚ) (data : List Nat)
    (hb : ∀ b ∈ data, b ≤ 255) (l : List Nat) (pd : List Nat) (off : Nat)
    (h : off + l.length * (3 * w + padN) ≤ pd.length) :
    ∃ pd2, l.foldlM (pack24Row ⟨w, hgt, 24, ((padN : ℕ) : ℚ), q⟩ data)
        ((pd, off) : List Nat × Nat) =
      Except.ok (pd2, off + l.length * (3 * w + padN)) ∧ pd2.length = pd.length := by
  induction l generalizing pd off with
  | nil =>
    exact ⟨pd, by simp only [List.foldlM_nil, List.length_nil, Nat.zero_mul,
      Nat.add_zero]; rfl, rfl⟩
  | cons a t ih =>
    have hR : (a :: t).length * (3 * w + padN) =
        (3 * w + padN) + t.length * (3 * w + padN) := by
      simp only [List.length_cons]; ring
    rw [hR] at h
    obtain ⟨pd1, hs, hl⟩ := pack24Row_spec w hgt padN q data hb a pd off (by omega)
    obtain ⟨pd2, h1, h2⟩ := ih pd1 (off + (3 * w + padN)) (by rw [hl]; omega)
    refine ⟨pd2, ?_, by rw [h2, hl]⟩
    rw [List.foldlM_cons, hs, exBind_ok, h1, hR]
    have : off + (3 * w + padN) + t.length * (3 * w + padN) =
        off + ((3 * w + padN) + t.length * (3 * w + padN)) := by ring
    rw [this]

theorem createPixelData_24 (w hgt padN : Nat) (data : List Nat)
    (hb : ∀ b ∈ data, b ≤ 255) :
    ∃ pd, BMPEncoder.createPixelData
        ⟨w, hgt, 24, ((padN : ℕ) : ℚ), ((3 * w : ℕ) : ℚ) + ((padN : ℕ) : ℚ)⟩ data =
      Except.ok pd ∧ pd.length = hgt * (3 * w + padN) := by
  unfold BMPEncoder.createPixelData
  dsimp only
  have ha : ((hgt : ℕ) : ℚ) * (((3 * w : ℕ) : ℚ) + ((padN : ℕ) : ℚ)) =
      ((hgt * (3 * w + padN) : ℕ) : ℚ) := by push_cast; ring
  rw [ha, bufferAlloc_natCast, exBind_ok, if_neg (by norm_num), if_pos rfl]
  obtain ⟨pd2, h1, h2⟩ := pack24Rows w hgt padN (((3 * w : ℕ) : ℚ) + ((padN : ℕ) : ℚ))
    data hb ((List.range hgt).reverse) (List.replicate (hgt * (3 * w + padN)) 0) 0
    (by simp)
  rw [List.length_reverse, List.length_range] at h1
  rw [h1, exBind_ok]
  exact ⟨pd2, rfl, by rw [h2]; simp⟩

theorem writeUInt32LE_cast (buf : List Nat) (n off : Nat) (vQ offQ : ℚ)
    (hvq : vQ = ((n : ℕ) : ℚ)) (hoq : offQ = ((off : ℕ) : ℚ))
    (hn : n ≤ 4294967295) (hoff : off + 3 < buf.length) :
    writeUInt32LE buf vQ offQ = Except.ok (le32set buf off n) := by
  rw [hvq, hoq]
  exact writeUInt32LE_natCast buf n off hn hoff

theorem writeInt32LE_cast (buf : List Nat) (n off : Nat) (vQ offQ : ℚ)
    (hvq : vQ = ((n : ℕ) : ℚ)) (hoq : offQ = ((off : ℕ) : ℚ))
    (hn : n ≤ 2147483647) (hoff : off + 3 < buf.length) :
    writeInt32LE buf vQ offQ = Except.ok (le32set buf off n) := by
  rw [hvq, hoq]
  exact writeInt32LE_natCast buf n off hn hoff

theorem writeUInt16LE_cast (buf : List Nat) (n off : Nat) (vQ offQ : ℚ)
    (hvq : vQ = ((n : ℕ) : ℚ)) (hoq : offQ = ((off : ℕ) : ℚ))
    (hn : n ≤ 65535) (hoff : off + 1 < buf.length) :
    writeUInt16LE buf vQ offQ = Except.ok (le16set buf off n) := by
  rw [hvq, hoq]
  exact writeUInt16LE_natCast buf n off hn hoff

theorem getD_replicate (n i : Nat) : (List.replicate n (0 : ℕ)).getD i 0 = 0 := by
  rw [List.getD_eq_getElem?_getD]
  by_cases hi : i < n
  · rw [List.getElem?_replicate, if_pos hi]
    rfl
  · rw [List.getElem?_replicate, if_neg hi]
    rfl

theorem createHeader_24 (w h : Nat) (hw : w ≤ 2147483647) (hh : h ≤ 2147483647)
    (hfs : 54 + h * (3 * w + (4 - (3 * w) % 4) % 4) ≤ 4294967295) :
    ∃ hdr, BMPEncoder.createHeader
        ⟨w, h, 24, (((4 - (3 * w) % 4) % 4 : ℕ) : ℚ),
          ((3 * w : ℕ) : ℚ) + (((4 - (3 * w) % 4) % 4 : ℕ) : ℚ)⟩ =
      Except.ok hdr ∧ hdr.length = 54 ∧ leRead32 hdr 18 = w ∧ leRead32 hdr 22 = h := by
  have himgb : 3 * (w * h) ≤ 4294967295 := by
    have h1 : h * (3 * w) ≤ h * (3 * w + (4 - (3 * w) % 4) % 4) :=
      Nat.mul_le_mul_left h (Nat.le_add_right _ _)
    have h2 : 3 * (w * h) = h * (3 * w) := by ring
    omega
  unfold BMPEncoder.createHeader
  dsimp only
  have h24a : (if (24 : ℕ) = 1 then (62 : ℕ) else 54) = 54 := by norm_num
  have h24b : (if (24 : ℕ) = 1 then (2 : ℕ) else 0) = 0 := by norm_num
  have h24c : ∀ x y : Except JsErr (List Nat), (if (24 : ℕ) = 1 then x else y) = y := by
    intro x y
    norm_num
  rw [h24a, h24b]
  simp only [h24c]
  rw [bufferAlloc_natCast 54, exBind_ok,
    writeUInt32LE_cast _ (54 + h * (3 * w + (4 - (3 * w) % 4) % 4)) 2, exBind_ok,
    writeUInt32LE_cast _ 0 6, exBind_ok,
    writeUInt32LE_cast _ 54 10, exBind_ok,
    writeUInt32LE_cast _ 40 14, exBind_ok,
    writeInt32LE_cast _ w 18, exBind_ok,
    writeInt32LE_cast _ h 22, exBind_ok,
    writeUInt16LE_cast _ 1 26, exBind_ok,
    writeUInt16LE_cast _ 24 28, exBind_ok,
    writeUInt32LE_cast _ 0 30, exBind_ok,
    writeUInt32LE_cast _ (3 * (w * h)) 34, exBind_ok,
    writeInt32LE_cast _ 0 38, exBind_ok,
    writeInt32LE_cast _ 0 42, exBind_ok,
    writeUInt32LE_cast _ 0 46, exBind_ok,
    writeUInt32LE_cast _ 0 50, exBind_ok]
  · refine ⟨_, rfl, ?_, ?_, ?_⟩
    all_goals simp only [leRead32, getD_le32set_out, getD_le32set_b0,
      getD_le32set_b1, getD_le32set_b2, getD_le32set_b3, getD_le16set_out,
      getD_le16set_b0, getD_le16set_b1, getD_set_ne, getD_set_self, le32set_length,
      le16set_length, List.length_set, List.length_replicate, getD_replicate,
      Nat.reduceAdd, Nat.reduceLT, Nat.reduceEqDiff, ne_eq, not_false_iff,
      true_or, or_true]
    all_goals omega
  all_goals (first | omega | (push_cast; ring) | skip)
  all_goals (simp [le32set, le16set]; try omega)

theorem createHeader_1 (m h padN : Nat) (hw : 8 * m ≤ 2147483647)
    (hh : h ≤ 2147483647) (hfs : 62 + h * (m + padN) ≤ 4294967295) :
    ∃ hdr, BMPEncoder.createHeader
        ⟨8 * m, h, 1, ((padN : ℕ) : ℚ), ((m : ℕ) : ℚ) + ((padN : ℕ) : ℚ)⟩ =
      Except.ok hdr ∧ hdr.length = 62 ∧
      hdr.getD 10 0 = 62 ∧ hdr.getD 11 0 = 0 ∧ hdr.getD 12 0 = 0 ∧
      hdr.getD 13 0 = 0 ∧
      leRead32 hdr 18 = 8 * m ∧ leRead32 hdr 22 = h ∧
      hdr.getD 54 0 = 0 ∧ hdr.getD 55 0 = 0 ∧ hdr.getD 56 0 = 0 ∧
      hdr.getD 57 0 = 0 ∧ hdr.getD 58 0 = 255 ∧ hdr.getD 59 0 = 255 ∧
      hdr.getD 60 0 = 255 ∧ hdr.getD 61 0 = 0 := by
  have himgb : m * h ≤ 4294967295 := by
    have h1 : h * m ≤ h * (m + padN) := Nat.mul_le_mul_left h (Nat.le_add_right _ _)
    have h2 : m * h = h * m := by ring
    omega
  unfold BMPEncoder.createHeader
  dsimp only
  have h1a : (if (1 : ℕ) = 1 then (62 : ℕ) else 54) = 62 := by norm_num
  have h1b : (if (1 : ℕ) = 1 then (2 : ℕ) else 0) = 2 := by norm_num
  have h1c : ∀ x y : Except JsErr (List Nat), (if (1 : ℕ) = 1 then x else y) = x := by
    intro x y
    norm_num
  rw [h1a, h1b]
  simp only [h1c]
  rw [bufferAlloc_natCast 62, exBind_ok,
    writeUInt32LE_cast _ (62 + h * (m + padN)) 2, exBind_ok,
    writeUInt32LE_cast _ 0 6, exBind_ok,
    writeUInt32LE_cast _ 62 10, exBind_ok,
    writeUInt32LE_cast _ 40 14, exBind_ok,
    writeInt32LE_cast _ (8 * m) 18, exBind_ok,
    writeInt32LE_cast _ h 22, exBind_ok,
    writeUInt16LE_cast _ 1 26, exBind_ok,
    writeUInt16LE_cast _ 1 28, exBind_ok,
    writeUInt32LE_cast _ 0 30, exBind_ok,
    writeUInt32LE_cast _ (m * h) 34, exBind_ok,
    writeInt32LE_cast _ 0 38, exBind_ok,
    writeInt32LE_cast _ 0 42, exBind_ok,
    writeUInt32LE_cast _ 2 46, exBind_ok,
    writeUInt32LE_cast _ 2 50, exBind_ok,
    writeUInt32LE_cast _ 0 54, exBind_ok,
    writeUInt32LE_cast _ 16777215 58, exBind_ok]
  · refine ⟨_, rfl, ?_, ?_, ?_, ?_, ?_, ?_, ?_, ?_, ?_, ?_, ?_, ?_, ?_, ?_, ?_⟩
    all_goals simp only [leRead32, getD_le32set_out, getD_le32set_b0,
      getD_le32set_b1, getD_le32set_b2, getD_le32set_b3, getD_le16set_out,
      getD_le16set_b0, getD_le16set_b1, getD_set_ne, getD_set_self, le32set_length,
      le16set_length, List.length_set, List.length_replicate, getD_replicate,
      Nat.reduceAdd, Nat.reduceLT, Nat.reduceEqDiff, ne_eq, not_false_iff,
      true_or, or_true]
    all_goals omega
  all_goals (first | omega | (push_cast; ring) | skip)
  all_goals (simp [le32set, le16set]; try omega)

theorem shiftLeft_bit_lt (x : Nat) : (1 : ℕ) <<< (7 - x % 8) < 256 := by
  rw [Nat.shiftLeft_eq, one_mul]
  calc (2 : ℕ) ^ (7 - x % 8) ≤ 2 ^ 7 := Nat.pow_le_pow_right (by norm_num) (by omega)
  _ < 256 := by norm_num

theorem packWrite_le (data : List Nat) (w y x cb : Nat) (hcb : cb ≤ 255) :
    packWrite data w y x cb ≤ 255 := by
  unfold packWrite
  by_cases hpx : jsIndex data (y * w + x) = some 255
  · rw [if_pos hpx]
    have h1 : cb < 2 ^ 8 := by omega
    have h2 : (1 : ℕ) <<< (7 - x % 8) < 2 ^ 8 := by
      have := shiftLeft_bit_lt x
      norm_num
      omega
    have := Nat.or_lt_two_pow h1 h2
    omega
  · rw [if_neg hpx]
    exact le_trans Nat.and_le_left hcb

theorem testBit_packWrite (data : List Nat) (w y x cb k : Nat) (hcb : cb ≤ 255) :
    (packWrite data w y x cb).testBit k =
      (if k = 7 - x % 8 then pixelBit data w y x else cb.testBit k) := by
  unfold packWrite pixelBit
  by_cases hpx : jsIndex data (y * w + x) = some 255
  · rw [if_pos hpx, testBit_setBit]
    by_cases hk : k = 7 - x % 8
    · rw [if_pos hk, decide_eq_true hk, decide_eq_true hpx, Bool.or_true]
    · rw [if_neg hk, decide_eq_false hk, Bool.or_false]
  · rw [if_neg hpx, testBit_clearBit cb _ k (by omega) (by omega)]
    by_cases hk : k = 7 - x % 8
    · rw [if_pos hk, decide_eq_true hk, decide_eq_false hpx]
      simp
    · rw [if_neg hk, decide_eq_false hk]
      simp

theorem pack1_bi_lt (m hgt padN y x : Nat) (hy : y < hgt) (hx : x < 8 * m) :
    (hgt - 1 - y) * (m + padN) + x / 8 < hgt * (m + padN) := by
  have hx8 : x / 8 < m := Nat.div_lt_of_lt_mul hx
  have h1 : hgt - 1 - y ≤ hgt - 1 := Nat.sub_le _ _
  calc (hgt - 1 - y) * (m + padN) + x / 8
      < (hgt - 1 - y) * (m + padN) + (m + padN) := by omega
  _ = (hgt - 1 - y + 1) * (m + padN) := by ring
  _ ≤ hgt * (m + padN) := Nat.mul_le_mul_right _ (by omega)

theorem pack1Pixel_spec (m hgt padN : Nat) (q : ℚ) (data : List Nat) (y x : Nat)
    (pd : List Nat) (hy : y < hgt) (hx : x < 8 * m)
    (hlen : pd.length = hgt * (m + padN)) (hbytes : ∀ b ∈ pd, b ≤ 255) :
    pack1Pixel ⟨8 * m, hgt, 1, q, ((m + padN : ℕ) : ℚ)⟩ data y x pd =
      Except.ok (pd.set ((hgt - 1 - y) * (m + padN) + x / 8)
        (packWrite data (8 * m) y x
          (pd.getD ((hgt - 1 - y) * (m + padN) + x / 8) 0))) := by
  have hbil : (hgt - 1 - y) * (m + padN) + x / 8 < pd.length := by
    rw [hlen]
    exact pack1_bi_lt m hgt padN y x hy hx
  have hcast : ((hgt - 1 - y : ℕ) : ℚ) * ((m + padN : ℕ) : ℚ) + ((x / 8 : ℕ) : ℚ) =
      (((hgt - 1 - y) * (m + padN) + x / 8 : ℕ) : ℚ) := by
    push_cast
    ring
  have hcb : pd.getD ((hgt - 1 - y) * (m + padN) + x / 8) 0 ≤ 255 :=
    hbytes _ (getD_mem pd _ hbil)
  unfold pack1Pixel
  dsimp only
  rw [hcast, readUInt8_natCast pd _ hbil, exBind_ok]
  unfold packWrite
  by_cases hpx : jsIndex data (y * (8 * m) + x) = some 255
  · rw [if_pos hpx, if_pos hpx]
    refine writeUInt8_natCast pd _ _ ?_ hbil
    have h1 : pd.getD ((hgt - 1 - y) * (m + padN) + x / 8) 0 < 2 ^ 8 := by omega
    have h2 : (1 : ℕ) <<< (7 - x % 8) < 2 ^ 8 := by
      have := shiftLeft_bit_lt x
      norm_num
      omega
    have := Nat.or_lt_two_pow h1 h2
    omega
  · rw [if_neg hpx, if_neg hpx]
    exact writeUInt8_natCast pd _ _ (le_trans Nat.and_le_left hcb) hbil

theorem bytes_le_of_getD (l : List Nat) (h : ∀ i, i < l.length → l.getD i 0 ≤ 255) :
    ∀ b ∈ l, b ≤ 255 := by
  intro b hb
  obtain ⟨i, hi, hgi⟩ := List.getElem_of_mem hb
  have h2 := h i hi
  rw [List.getD_eq_getElem l 0 hi, hgi] at h2
  exact h2

theorem pack1PixelFold (m hgt padN : Nat) (q : ℚ) (data : List Nat) (y : Nat)
    (hy : y < hgt) :
    ∀ (n x0 : Nat) (pd : List Nat), x0 + n ≤ 8 * m →
      pd.length = hgt * (m + padN) → (∀ b ∈ pd, b ≤ 255) →
      ∃ pd2, (List.range' x0 n).foldlM
          (fun pdc x =>
            pack1Pixel ⟨8 * m, hgt, 1, q, ((m + padN : ℕ) : ℚ)⟩ data y x pdc)
          pd = Except.ok pd2 ∧
        pd2.length = pd.length ∧ (∀ b ∈ pd2, b ≤ 255) ∧
        ∀ p k, (pd2.getD p 0).testBit k =
          (if (hgt - 1 - y) * (m + padN) ≤ p ∧ k < 8 ∧
              x0 ≤ 8 * (p - (hgt - 1 - y) * (m + padN)) + (7 - k) ∧
              8 * (p - (hgt - 1 - y) * (m + padN)) + (7 - k) < x0 + n
            then pixelBit data (8 * m) y
              (8 * (p - (hgt - 1 - y) * (m + padN)) + (7 - k))
            else (pd.getD p 0).testBit k) := by
  intro n
  induction n with
  | zero =>
    intro x0 pd hxn hlen hb
    refine ⟨pd, rfl, rfl, hb, fun p k => ?_⟩
    rw [if_neg (by omega)]
  | succ n ih =>
    intro x0 pd hxn hlen hb
    have hx0 : x0 < 8 * m := by omega
    have hbil : (hgt - 1 - y) * (m + padN) + x0 / 8 < pd.length := by
      rw [hlen]
      exact pack1_bi_lt m hgt padN y x0 hy hx0
    have hcb : pd.getD ((hgt - 1 - y) * (m + padN) + x0 / 8) 0 ≤ 255 :=
      hb _ (getD_mem pd _ hbil)
    have hstep := pack1Pixel_spec m hgt padN q data y x0 pd hy hx0 hlen hb
    have hlen1 : (pd.set ((hgt - 1 - y) * (m + padN) + x0 / 8)
        (packWrite data (8 * m) y x0
          (pd.getD ((hgt - 1 - y) * (m + padN) + x0 / 8) 0))).length =
        hgt * (m + padN) := by
      rw [List.length_set]
      exact hlen
    have hb1 : ∀ b ∈ pd.set ((hgt - 1 - y) * (m + padN) + x0 / 8)
        (packWrite data (8 * m) y x0
          (pd.getD ((hgt - 1 - y) * (m + padN) + x0 / 8) 0)), b ≤ 255 := by
      intro b hbm
      rcases List.mem_or_eq_of_mem_set hbm with hmm | hmm
      · exact hb b hmm
      · rw [hmm]
        exact packWrite_le _ _ _ _ _ hcb
    obtain ⟨pd2, hfold, hlen2, hb2, hchar⟩ := ih (x0 + 1) _ (by omega) hlen1 hb1
    refine ⟨pd2, ?_, by rw [hlen2, List.length_set], hb2, fun p k => ?_⟩
    · rw [List.range'_succ, List.foldlM_cons, hstep, exBind_ok, hfold]
    · rw [hchar p k]
      by_cases hA : (hgt - 1 - y) * (m + padN) ≤ p ∧ k < 8 ∧
          x0 + 1 ≤ 8 * (p - (hgt - 1 - y) * (m + padN)) + (7 - k) ∧
          8 * (p - (hgt - 1 - y) * (m + padN)) + (7 - k) < x0 + 1 + n
      · rw [if_pos hA, if_pos (show (hgt - 1 - y) * (m + padN) ≤ p ∧ k < 8 ∧
          x0 ≤ 8 * (p - (hgt - 1 - y) * (m + padN)) + (7 - k) ∧
          8 * (p - (hgt - 1 - y) * (m + padN)) + (7 - k) < x0 + (n + 1) by omega)]
      · rw [if_neg hA]
        by_cases hB : (hgt - 1 - y) * (m + padN) ≤ p ∧ k < 8 ∧
            x0 ≤ 8 * (p - (hgt - 1 - y) * (m + padN)) + (7 - k) ∧
            8 * (p - (hgt - 1 - y) * (m + padN)) + (7 - k) < x0 + (n + 1)
        · rw [if_pos hB]
          have hv : 8 * (p - (hgt - 1 - y) * (m + padN)) + (7 - k) = x0 := by omega
          have hp : p = (hgt - 1 - y) * (m + padN) + x0 / 8 := by omega
          have hk : k = 7 - x0 % 8 := by omega
          subst hp
          rw [getD_set_self _ _ _ hbil, testBit_packWrite _ _ _ _ _ _ hcb,
            if_pos hk, hv]
        · rw [if_neg hB]
          by_cases hpbi : p = (hgt - 1 - y) * (m + padN) + x0 / 8
          · subst hpbi
            rw [getD_set_self _ _ _ hbil, testBit_packWrite _ _ _ _ _ _ hcb]
            by_cases hk : k = 7 - x0 % 8
            · exact absurd ⟨by omega, by omega, by omega, by omega⟩ hB
            · rw [if_neg hk]
          · rw [getD_set_ne _ _ _ _ (fun hpe => hpbi hpe.symm)]

theorem pad_cond_iff (m padN q r c : Nat) (hc : c < m + padN) :
    (q * (m + padN) + m ≤ r * (m + padN) + c ∧
      r * (m + padN) + c < q * (m + padN) + m + padN) ↔ (r = q ∧ m ≤ c) := by
  constructor
  · rintro ⟨h1, h2⟩
    rcases lt_trichotomy r q with h | h | h
    · exfalso
      have hmul : (r + 1) * (m + padN) ≤ q * (m + padN) :=
        Nat.mul_le_mul_right _ (by omega)
      have h3 : r * (m + padN) + (m + padN) ≤ q * (m + padN) := by
        calc r * (m + padN) + (m + padN) = (r + 1) * (m + padN) := by ring
        _ ≤ _ := hmul
      omega
    · subst h
      exact ⟨rfl, by omega⟩
    · exfalso
      have hmul : (q + 1) * (m + padN) ≤ r * (m + padN) :=
        Nat.mul_le_mul_right _ (by omega)
      have h3 : q * (m + padN) + (m + padN) ≤ r * (m + padN) := by
        calc q * (m + padN) + (m + padN) = (q + 1) * (m + padN) := by ring
        _ ≤ _ := hmul
      omega
  · rintro ⟨h1, h2⟩
    subst h1
    omega

theorem pix_cond_iff (m padN b r c k : Nat) (hc : c < m + padN) (hk : k < 8) :
    (b * (m + padN) ≤ r * (m + padN) + c ∧
      8 * (r * (m + padN) + c - b * (m + padN)) + (7 - k) < 8 * m) ↔
    (r = b ∧ c < m) := by
  constructor
  · rintro ⟨h1, h2⟩
    rcases lt_trichotomy r b with h | h | h
    · exfalso
      have hmul : (r + 1) * (m + padN) ≤ b * (m + padN) :=
        Nat.mul_le_mul_right _ (by omega)
      have h3 : r * (m + padN) + (m + padN) ≤ b * (m + padN) := by
        calc r * (m + padN) + (m + padN) = (r + 1) * (m + padN) := by ring
        _ ≤ _ := hmul
      omega
    · subst h
      exact ⟨rfl, by omega⟩
    · exfalso
      have hmul : (b + 1) * (m + padN) ≤ r * (m + padN) :=
        Nat.mul_le_mul_right _ (by omega)
      have h3 : b * (m + padN) + (m + padN) ≤ r * (m + padN) := by
        calc b * (m + padN) + (m + padN) = (b + 1) * (m + padN) := by ring
        _ ≤ _ := hmul
      omega
  · rintro ⟨h1, h2⟩
    subst h1
    exact ⟨by omega, by omega⟩

theorem pack1Row_spec (m hgt padN : Nat) (data : List Nat) (y : Nat)
    (hy : y < hgt) (pd : List Nat) (off : Nat) (hoff : off = y * (m + padN))
    (hlen : pd.length = hgt * (m + padN)) (hb : ∀ b ∈ pd, b ≤ 255) :
    ∃ pd2, pack1Row ⟨8 * m, hgt, 1, ((padN : ℕ) : ℚ), ((m + padN : ℕ) : ℚ)⟩ data
        ((pd, off) : List Nat × Nat) y =
      Except.ok (pd2, y * (m + padN) + m + padN) ∧
      pd2.length = pd.length ∧ (∀ b ∈ pd2, b ≤ 255) ∧
      ∀ p k, (pd2.getD p 0).testBit k =
        (if y * (m + padN) + m ≤ p ∧ p < y * (m + padN) + m + padN then false
          else if (hgt - 1 - y) * (m + padN) ≤ p ∧ k < 8 ∧
              8 * (p - (hgt - 1 - y) * (m + padN)) + (7 - k) < 8 * m
            then pixelBit data (8 * m) y
              (8 * (p - (hgt - 1 - y) * (m + padN)) + (7 - k))
            else (pd.getD p 0).testBit k) := by
  subst hoff
  unfold pack1Row
  dsimp only
  rw [List.range_eq_range' (8 * m)]
  obtain ⟨pd1, hfold, hlen1, hb1, hchar1⟩ :=
    pack1PixelFold m hgt padN ((padN : ℕ) : ℚ) data y hy (8 * m) 0 pd
      (by omega) hlen hb
  rw [hfold, exBind_ok, ceilDiv8_eq m, padIters_natCast padN]
  obtain ⟨pd2, hpadf, hlen2, hchar2⟩ :=
    padFold (List.range padN) pd1 (y * (m + padN) + m)
      (by
        rw [List.length_range, hlen1, hlen]
        have h1 : (y + 1) * (m + padN) ≤ hgt * (m + padN) :=
          Nat.mul_le_mul_right _ (by omega)
        have h2 : (y + 1) * (m + padN) = y * (m + padN) + (m + padN) := by ring
        omega)
  simp only [List.length_range] at hpadf hchar2
  rw [hpadf]
  have hb2 : ∀ b ∈ pd2, b ≤ 255 := by
    apply bytes_le_of_getD
    intro i hi
    rw [hchar2 i]
    by_cases hcnd : y * (m + padN) + m ≤ i ∧ i < y * (m + padN) + m + padN
    · rw [if_pos hcnd]
      omega
    · rw [if_neg hcnd]
      exact hb1 _ (getD_mem pd1 i (by rw [← hlen2]; exact hi))
  refine ⟨pd2, rfl, hlen2.trans hlen1, hb2, fun p k => ?_⟩
  rw [hchar2 p]
  by_cases hpad : y * (m + padN) + m ≤ p ∧ p < y * (m + padN) + m + padN
  · rw [if_pos hpad, if_pos hpad, Nat.zero_testBit]
  · rw [if_neg hpad, if_neg hpad, hchar1 p k]
    by_cases hpix : (hgt - 1 - y) * (m + padN) ≤ p ∧ k < 8 ∧
        8 * (p - (hgt - 1 - y) * (m + padN)) + (7 - k) < 8 * m
    · rw [if_pos (show (hgt - 1 - y) * (m + padN) ≤ p ∧ k < 8 ∧
        0 ≤ 8 * (p - (hgt - 1 - y) * (m + padN)) + (7 - k) ∧
        8 * (p - (hgt - 1 - y) * (m + padN)) + (7 - k) < 0 + 8 * m by omega),
        if_pos hpix]
    · rw [if_neg (show ¬((hgt - 1 - y) * (m + padN) ≤ p ∧ k < 8 ∧
        0 ≤ 8 * (p - (hgt - 1 - y) * (m + padN)) + (7 - k) ∧
        8 * (p - (hgt - 1 - y) * (m + padN)) + (7 - k) < 0 + 8 * m) by omega),
        if_neg hpix]

theorem pack1Rows (m hgt padN : Nat) (data : List Nat) :
    ∀ (cnt y0 : Nat) (pd : List Nat) (off : Nat), y0 + cnt ≤ hgt →
      off = y0 * (m + padN) →
      pd.length = hgt * (m + padN) → (∀ b ∈ pd, b ≤ 255) →
      ∃ pd2, (List.range' y0 cnt).foldlM
          (pack1Row ⟨8 * m, hgt, 1, ((padN : ℕ) : ℚ), ((m + padN : ℕ) : ℚ)⟩ data)
          ((pd, off) : List Nat × Nat) =
        Except.ok (pd2, (y0 + cnt) * (m + padN)) ∧
        pd2.length = pd.length ∧ (∀ b ∈ pd2, b ≤ 255) ∧
        ∀ r c k, r < hgt → c < m + padN →
          (pd2.getD (r * (m + padN) + c) 0).testBit k =
            (if c < m ∧ k < 8 ∧ y0 ≤ hgt - 1 - r ∧ hgt - 1 - r < y0 + cnt
              then pixelBit data (8 * m) (hgt - 1 - r) (8 * c + (7 - k))
              else if m ≤ c ∧ y0 ≤ r ∧ r < y0 + cnt then false
              else (pd.getD (r * (m + padN) + c) 0).testBit k) := by
  intro cnt
  induction cnt with
  | zero =>
    intro y0 pd off hcnt hoff hlen hb
    subst hoff
    refine ⟨pd, rfl, rfl, hb, fun r c k hr hc => ?_⟩
    rw [if_neg (by omega), if_neg (by omega)]
  | succ n ih =>
    intro y0 pd off hcnt hoff hlen hb
    subst hoff
    have hy0 : y0 < hgt := by omega
    obtain ⟨pd1, hrow, hlen1, hb1, hchar1⟩ :=
      pack1Row_spec m hgt padN data y0 hy0 pd (y0 * (m + padN)) rfl hlen hb
    obtain ⟨pd2, hfold, hlen2, hb2, hchar2⟩ :=
      ih (y0 + 1) pd1 ((y0 + 1) * (m + padN)) (by omega) rfl
        (by rw [hlen1, hlen]) hb1
    have hoA : y0 * (m + padN) + m + padN = (y0 + 1) * (m + padN) := by ring
    refine ⟨pd2, ?_, by rw [hlen2, hlen1], hb2, fun r c k hr hc => ?_⟩
    · rw [List.range'_succ, List.foldlM_cons, hrow, exBind_ok, hoA, hfold]
      have hoB : (y0 + 1 + n) * (m + padN) = (y0 + (n + 1)) * (m + padN) := by ring
      rw [hoB]
    · rw [hchar2 r c k hr hc]
      by_cases hpixI : c < m ∧ k < 8 ∧ y0 + 1 ≤ hgt - 1 - r ∧
          hgt - 1 - r < y0 + 1 + n
      · rw [if_pos hpixI, if_pos (show c < m ∧ k < 8 ∧ y0 ≤ hgt - 1 - r ∧
          hgt - 1 - r < y0 + (n + 1) by omega)]
      · rw [if_neg hpixI]
        by_cases hpadI : m ≤ c ∧ y0 + 1 ≤ r ∧ r < y0 + 1 + n
        · rw [if_pos hpadI,
            if_neg (show ¬(c < m ∧ k < 8 ∧ y0 ≤ hgt - 1 - r ∧
              hgt - 1 - r < y0 + (n + 1)) by omega),
            if_pos (show m ≤ c ∧ y0 ≤ r ∧ r < y0 + (n + 1) by omega)]
        · rw [if_neg hpadI, hchar1 (r * (m + padN) + c) k]
          by_cases hpadY : r = y0 ∧ m ≤ c
          · rw [if_pos ((pad_cond_iff m padN y0 r c hc).mpr hpadY),
              if_neg (show ¬(c < m ∧ k < 8 ∧ y0 ≤ hgt - 1 - r ∧
                hgt - 1 - r < y0 + (n + 1)) by omega),
              if_pos (show m ≤ c ∧ y0 ≤ r ∧ r < y0 + (n + 1) by omega)]
          · rw [if_neg (fun hmem => hpadY ((pad_cond_iff m padN y0 r c hc).mp hmem))]
            by_cases hk8 : k < 8
            · by_cases hpixY : r = hgt - 1 - y0 ∧ c < m
              · have hmem := (pix_cond_iff m padN (hgt - 1 - y0) r c k hc hk8).mpr hpixY
                rw [if_pos ⟨hmem.1, hk8, hmem.2⟩]
                have e1 : hgt - 1 - r = y0 := by omega
                have e2 : r * (m + padN) + c - (hgt - 1 - y0) * (m + padN) = c := by
                  rw [hpixY.1]
                  omega
                rw [if_pos (show c < m ∧ k < 8 ∧ y0 ≤ hgt - 1 - r ∧
                  hgt - 1 - r < y0 + (n + 1) by omega), e1, e2]
              · rw [if_neg (fun hmem => hpixY
                    ((pix_cond_iff m padN (hgt - 1 - y0) r c k hc hk8).mp
                      ⟨hmem.1, hmem.2.2⟩)),
                  if_neg (show ¬(c < m ∧ k < 8 ∧ y0 ≤ hgt - 1 - r ∧
                    hgt - 1 - r < y0 + (n + 1)) by omega),
                  if_neg (show ¬(m ≤ c ∧ y0 ≤ r ∧ r < y0 + (n + 1)) by omega)]
            · rw [if_neg (show ¬((hgt - 1 - y0) * (m + padN) ≤ r * (m + padN) + c ∧
                  k < 8 ∧ 8 * (r * (m + padN) + c - (hgt - 1 - y0) * (m + padN)) +
                    (7 - k) < 8 * m) by omega),
                if_neg (show ¬(c < m ∧ k < 8 ∧ y0 ≤ hgt - 1 - r ∧
                  hgt - 1 - r < y0 + (n + 1)) by omega),
                if_neg (show ¬(m ≤ c ∧ y0 ≤ r ∧ r < y0 + (n + 1)) by omega)]

theorem createPixelData_1 (m hgt padN : Nat) (data : List Nat) :
    ∃ pd, BMPEncoder.createPixelData
        ⟨8 * m, hgt, 1, ((padN : ℕ) : ℚ), ((m + padN : ℕ) : ℚ)⟩ data =
      Except.ok pd ∧ pd.length = hgt * (m + padN) ∧
      ∀ r c k, r < hgt → c < m + padN →
        (pd.getD (r * (m + padN) + c) 0).testBit k =
          (if c < m ∧ k < 8
            then pixelBit data (8 * m) (hgt - 1 - r) (8 * c + (7 - k))
            else false) := by
  unfold BMPEncoder.createPixelData
  dsimp only
  have ha : ((hgt : ℕ) : ℚ) * ((m + padN : ℕ) : ℚ) = ((hgt * (m + padN) : ℕ) : ℚ) := by
    push_cast
    ring
  rw [ha, bufferAlloc_natCast, exBind_ok, if_pos rfl, List.range_eq_range' hgt]
  obtain ⟨pd2, hfold, hlen2, hb2, hchar2⟩ := pack1Rows m hgt padN data hgt 0
    (List.replicate (hgt * (m + padN)) 0) 0 (by omega) (by ring) (by simp)
    (by
      intro b hbm
      rw [List.eq_of_mem_replicate hbm]
      omega)
  rw [hfold, exBind_ok]
  refine ⟨pd2, rfl, by rw [hlen2]; simp, fun r c k hr hc => ?_⟩
  rw [hchar2 r c k hr hc]
  by_cases hpix : c < m ∧ k < 8
  · rw [if_pos (show c < m ∧ k < 8 ∧ 0 ≤ hgt - 1 - r ∧ hgt - 1 - r < 0 + hgt
      by omega), if_pos hpix]
  · rw [if_neg (show ¬(c < m ∧ k < 8 ∧ 0 ≤ hgt - 1 - r ∧ hgt - 1 - r < 0 + hgt)
      by omega), if_neg hpix]
    by_cases hpad : m ≤ c ∧ 0 ≤ r ∧ r < 0 + hgt
    · rw [if_pos hpad]
    · rw [if_neg hpad, getD_replicate, Nat.zero_testBit]

theorem leRead32_append (l l' : List Nat) (i : Nat) (h : i + 3 < l.length) :
    leRead32 (l ++ l') i = leRead32 l i := by
  unfold leRead32
  rw [List.getD_append _ _ _ _ (by omega), List.getD_append _ _ _ _ (by omega),
    List.getD_append _ _ _ _ (by omega), List.getD_append _ _ _ _ (by omega)]

theorem getD_append_off (l l' : List Nat) (p : Nat) (h : l.length = 62) :
    (l ++ l').getD (62 + p) 0 = l'.getD p 0 := by
  rw [List.getD_append_right _ _ _ _ (by omega), h]
  congr 1
  omega

theorem pixelBit_oob (data : List Nat) (w y x : Nat)
    (h : data.length ≤ y * w + x) : pixelBit data w y x = false := by
  unfold pixelBit jsIndex
  rw [if_neg (by omega)]
  rfl

theorem bmpEncode_24 (w h : Nat) (data : List Nat) (hb : ∀ b ∈ data, b ≤ 255)
    (hw : w ≤ 2147483647) (hh : h ≤ 2147483647)
    (hfs : 54 + h * (3 * w + (4 - (3 * w) % 4) % 4) ≤ 4294967295) :
    ∃ out, bmpEncode w h 24 data = Except.ok out ∧
      out.length = 54 + h * (3 * w + (4 - (3 * w) % 4) % 4) ∧
      leRead32 out 18 = w ∧ leRead32 out 22 = h := by
  unfold bmpEncode
  rw [mkBMPEncoder_24 w h, exBind_ok]
  unfold BMPEncoder.encode
  obtain ⟨hdr, hH, hHlen, hH18, hH22⟩ := createHeader_24 w h hw hh hfs
  rw [hH, exBind_ok]
  obtain ⟨pd, hP, hPlen⟩ := createPixelData_24 w h ((4 - (3 * w) % 4) % 4) data hb
  rw [hP, exBind_ok]
  refine ⟨hdr ++ pd, rfl, ?_, ?_, ?_⟩
  · rw [List.length_append, hHlen, hPlen]
  · rw [leRead32_append _ _ _ (by omega), hH18]
  · rw [leRead32_append _ _ _ (by omega), hH22]

theorem bmpEncode_1 (m h : Nat) (data : List Nat)
    (hw : 8 * m ≤ 2147483647) (hh : h ≤ 2147483647)
    (hfs : 62 + h * (m + (4 - m % 4) % 4) ≤ 4294967295) :
    ∃ out, bmpEncode (8 * m) h 1 data = Except.ok out ∧
      out.length = 62 + h * (m + (4 - m % 4) % 4) ∧
      out.getD 10 0 = 62 ∧ out.getD 11 0 = 0 ∧ out.getD 12 0 = 0 ∧
      out.getD 13 0 = 0 ∧
      leRead32 out 18 = 8 * m ∧ leRead32 out 22 = h ∧
      out.getD 54 0 = 0 ∧ out.getD 55 0 = 0 ∧ out.getD 56 0 = 0 ∧
      out.getD 57 0 = 0 ∧ out.getD 58 0 = 255 ∧ out.getD 59 0 = 255 ∧
      out.getD 60 0 = 255 ∧ out.getD 61 0 = 0 ∧
      ∀ r c k, r < h → c < m + (4 - m % 4) % 4 →
        (out.getD (62 + (r * (m + (4 - m % 4) % 4) + c)) 0).testBit k =
          (if c < m ∧ k < 8
            then pixelBit data (8 * m) (h - 1 - r) (8 * c + (7 - k))
            else false) := by
  unfold bmpEncode
  rw [mkBMPEncoder_1 m h, exBind_ok]
  unfold BMPEncoder.encode
  obtain ⟨hdr, hH, hHlen, h10, h11, h12, h13, hH18, hH22, h54, h55, h56, h57,
    h58, h59, h60, h61⟩ := createHeader_1 m h ((4 - m % 4) % 4) hw hh hfs
  rw [hH, exBind_ok, castAdd m ((4 - m % 4) % 4)]
  obtain ⟨pd, hP, hPlen, hPchar⟩ := createPixelData_1 m h ((4 - m % 4) % 4) data
  rw [hP, exBind_ok]
  have hj : ∀ j : Nat, j < 62 → (hdr ++ pd).getD j 0 = hdr.getD j 0 := by
    intro j hjl
    exact List.getD_append _ _ _ _ (by omega)
  refine ⟨hdr ++ pd, rfl, ?_, ?_, ?_, ?_, ?_, ?_, ?_, ?_, ?_, ?_, ?_, ?_, ?_,
    ?_, ?_, fun r c k hr hc => ?_⟩
  · rw [List.length_append, hHlen, hPlen]
  · rw [hj 10 (by omega), h10]
  · rw [hj 11 (by omega), h11]
  · rw [hj 12 (by omega), h12]
  · rw [hj 13 (by omega), h13]
  · rw [leRead32_append _ _ _ (by omega), hH18]
  · rw [leRead32_append _ _ _ (by omega), hH22]
  · rw [hj 54 (by omega), h54]
  · rw [hj 55 (by omega), h55]
  · rw [hj 56 (by omega), h56]
  · rw [hj 57 (by omega), h57]
  · rw [hj 58 (by omega), h58]
  · rw [hj 59 (by omega), h59]
  · rw [hj 60 (by omega), h60]
  · rw [hj 61 (by omega), h61]
  · rw [getD_append_off _ _ _ hHlen, hPchar r c k hr hc]

unseal Rat.add Rat.sub Rat.mul Rat.inv in
/-- Counterexample to C3: an empty sample buffer — shorter than
`width * height * channels = 8` — is not rejected with any `BufferTooSmall`
error: `new BMPEncoder(8, 1, 1).encode(Buffer.alloc(0))` returns a complete
66-byte container whose pixel row is all zero bits (black), built from the
short buffer. -/
theorem short_buffer_not_rejected :
    bmpEncode 8 1 1 [] = Except.ok
      [66, 77, 66, 0, 0, 0, 0, 0, 0, 0, 62, 0, 0, 0, 40, 0, 0, 0, 8, 0, 0, 0,
       1, 0, 0, 0, 1, 0, 1, 0, 0, 0, 0, 0, 1, 0, 0, 0, 0, 0, 0, 0, 0, 0, 0, 0,
       2, 0, 0, 0, 2, 0, 0, 0, 0, 0, 0, 0, 255, 255, 255, 0, 0, 0, 0, 0] := by
  decide

/-- C3 (amended): `BMPEncoder.encode` performs no length validation at all.
In 1-bit mode (width a multiple of 8, so that the fractional-stride overflow
of C4 does not intervene) encoding succeeds for every sample buffer, however
short, and every pixel whose sample lies beyond the end of the buffer is
silently packed as bit 0 (black) rather than rejected. -/
theorem short_buffer_amended (m h : Nat) (data : List Nat)
    (hw : 8 * m ≤ 2147483647) (hh : h ≤ 2147483647)
    (hfs : 62 + h * (m + (4 - m % 4) % 4) ≤ 4294967295) :
    ∃ out, bmpEncode (8 * m) h 1 data = Except.ok out ∧
      ∀ r c k, r < h → c < m → k < 8 →
        data.length ≤ (h - 1 - r) * (8 * m) + (8 * c + (7 - k)) →
        (out.getD (62 + (r * (m + (4 - m % 4) % 4) + c)) 0).testBit k = false := by
  obtain ⟨out, hok, hlen, h10, h11, h12, h13, h18, h22, h54, h55, h56, h57,
    h58, h59, h60, h61, hchar⟩ := bmpEncode_1 m h data hw hh hfs
  refine ⟨out, hok, fun r c k hr hc hk hoob => ?_⟩
  rw [hchar r c k hr (by omega), if_pos ⟨hc, hk⟩, pixelBit_oob _ _ _ _ hoob]

/-- Witness for C3's amended theorem at `width = 8`, `height = 1` and an
empty sample buffer: the encode succeeds and the first pixel's bit is 0. -/
theorem short_buffer_amended_witness :
    8 * 1 ≤ 2147483647 ∧ (1 : ℕ) ≤ 2147483647 ∧
    62 + 1 * (1 + (4 - 1 % 4) % 4) ≤ 4294967295 ∧
    (∃ out, bmpEncode (8 * 1) 1 1 [] = Except.ok out ∧
      ∀ r c k, r < 1 → c < 1 → k < 8 →
        (List.nil : List Nat).length ≤ (1 - 1 - r) * (8 * 1) + (8 * c + (7 - k)) →
        (out.getD (62 + (r * (1 + (4 - 1 % 4) % 4) + c)) 0).testBit k = false) :=
  ⟨by norm_num, by norm_num, by norm_num,
    short_buffer_amended 1 1 [] (by norm_num) (by norm_num) (by norm_num)⟩

unseal Rat.add Rat.sub Rat.mul Rat.inv in
/-- Counterexample to C4: for `width = 10`, `height = 1`, 1-bit depth and a
full `width * height`-sample buffer, the encoder does not return any buffer at
all: the fractional `paddedWidthBytes = Math.ceil(1.25) + 2 = 4` combined with
the fractional per-pixel byte index makes `readUInt8` hit the non-integer
offset 1.25 and throw `ERR_OUT_OF_RANGE`. -/
theorem size_alignment_not_universal :
    bmpEncode 10 1 1 (List.replicate 10 0) =
      Except.error JsErr.offsetOutOfRange := by
  decide

/-- C4 (amended): for 24-bit depth with any width, and for 1-bit depth with a
width that is a multiple of 8, the encoded buffer has total length
`headerSize + height * paddedRowBytes` with `rowBytes = width * bitsPerPixel / 8`
and `padding = (4 - rowBytes % 4) % 4`, the header-declared width and height
equal the construction arguments, and the padded row stride is a multiple
of 4. -/
theorem size_alignment_amended (w h bpp : Nat) (data : List Nat)
    (hb : ∀ b ∈ data, b ≤ 255)
    (hbpp : bpp = 24 ∨ (bpp = 1 ∧ 8 ∣ w))
    (hw : w ≤ 2147483647) (hh : h ≤ 2147483647)
    (hfs : 62 + h * (w * bpp / 8 + (4 - (w * bpp / 8) % 4) % 4) ≤ 4294967295) :
    ∃ out, bmpEncode w h bpp data = Except.ok out ∧
      out.length = (if bpp = 1 then 62 else 54) +
        h * (w * bpp / 8 + (4 - (w * bpp / 8) % 4) % 4) ∧
      leRead32 out 18 = w ∧ leRead32 out 22 = h ∧
      (w * bpp / 8 + (4 - (w * bpp / 8) % 4) % 4) % 4 = 0 := by
  rcases hbpp with hbpp | ⟨hbpp, hdvd⟩
  · subst hbpp
    have hrow : w * 24 / 8 = 3 * w := by omega
    rw [hrow] at hfs ⊢
    obtain ⟨out, hok, hlen, h18, h22⟩ := bmpEncode_24 w h data hb hw hh (by omega)
    refine ⟨out, hok, ?_, h18, h22, by omega⟩
    rw [hlen, if_neg (by norm_num)]
  · obtain ⟨m, rfl⟩ := hdvd
    subst hbpp
    have hrow : 8 * m * 1 / 8 = m := by omega
    rw [hrow] at hfs ⊢
    obtain ⟨out, hok, hlen, h10, h11, h12, h13, h18, h22, h54, h55, h56, h57,
      h58, h59, h60, h61, hchar⟩ := bmpEncode_1 m h data hw hh hfs
    refine ⟨out, hok, ?_, h18, h22, by omega⟩
    rw [hlen, if_pos rfl]

/-- Witness for C4's amended theorem at `width = 2`, `height = 1`, 24-bit,
with a six-sample buffer. -/
theorem size_alignment_amended_witness :
    (∀ b ∈ List.replicate 6 (0 : ℕ), b ≤ 255) ∧
    ((24 : ℕ) = 24 ∨ ((24 : ℕ) = 1 ∧ 8 ∣ 2)) ∧
    (2 : ℕ) ≤ 2147483647 ∧ (1 : ℕ) ≤ 2147483647 ∧
    62 + 1 * (2 * 24 / 8 + (4 - (2 * 24 / 8) % 4) % 4) ≤ 4294967295 ∧
    (∃ out, bmpEncode 2 1 24 (List.replicate 6 0) = Except.ok out ∧
      out.length = (if (24 : ℕ) = 1 then 62 else 54) +
        1 * (2 * 24 / 8 + (4 - (2 * 24 / 8) % 4) % 4) ∧
      leRead32 out 18 = 2 ∧ leRead32 out 22 = 1 ∧
      (2 * 24 / 8 + (4 - (2 * 24 / 8) % 4) % 4) % 4 = 0) :=
  ⟨by decide, Or.inl rfl, by norm_num, by norm_num, by norm_num,
    size_alignment_amended 2 1 24 (List.replicate 6 0) (by decide)
      (Or.inl rfl) (by norm_num) (by norm_num) (by norm_num)⟩

unseal Rat.add Rat.sub Rat.mul Rat.inv in
/-- Counterexample to C5: for `width = 10` and `height = 2` the 1-bit encoder
produces no header at all — `encode` throws `ERR_OUT_OF_RANGE` from the
fractional pixel byte offset before any buffer is returned, so the claim's
"for every w and h" fails. -/
theorem palette_not_universal :
    bmpEncode 10 2 1 (List.replicate 20 0) =
      Except.error JsErr.offsetOutOfRange := by
  decide

/-- C5 (amended): for every width that is a multiple of 8 and every height,
the 1-bit encode succeeds and its header stores pixel-data offset exactly 62
(bytes 10-13, little endian) and an 8-byte palette with entry 0 = black
`(0,0,0)` and entry 1 = white `(255,255,255)`, each a 4-byte
blue-green-red-reserved tuple. -/
theorem palette_amended (m h : Nat) (data : List Nat)
    (hw : 8 * m ≤ 2147483647) (hh : h ≤ 2147483647)
    (hfs : 62 + h * (m + (4 - m % 4) % 4) ≤ 4294967295) :
    ∃ out, bmpEncode (8 * m) h 1 data = Except.ok out ∧
      leRead32 out 10 = 62 ∧
      out.getD 54 0 = 0 ∧ out.getD 55 0 = 0 ∧ out.getD 56 0 = 0 ∧
      out.getD 57 0 = 0 ∧ out.getD 58 0 = 255 ∧ out.getD 59 0 = 255 ∧
      out.getD 60 0 = 255 ∧ out.getD 61 0 = 0 := by
  obtain ⟨out, hok, hlen, h10, h11, h12, h13, h18, h22, h54, h55, h56, h57,
    h58, h59, h60, h61, hchar⟩ := bmpEncode_1 m h data hw hh hfs
  refine ⟨out, hok, ?_, h54, h55, h56, h57, h58, h59, h60, h61⟩
  unfold leRead32
  rw [h10, h11, h12, h13]

/-- Witness for C5's amended theorem at `width = 16`, `height = 1`, empty
sample buffer. -/
theorem palette_amended_witness :
    8 * 2 ≤ 2147483647 ∧ (1 : ℕ) ≤ 2147483647 ∧
    62 + 1 * (2 + (4 - 2 % 4) % 4) ≤ 4294967295 ∧
    (∃ out, bmpEncode (8 * 2) 1 1 [] = Except.ok out ∧
      leRead32 out 10 = 62 ∧
      out.getD 54 0 = 0 ∧ out.getD 55 0 = 0 ∧ out.getD 56 0 = 0 ∧
      out.getD 57 0 = 0 ∧ out.getD 58 0 = 255 ∧ out.getD 59 0 = 255 ∧
      out.getD 60 0 = 255 ∧ out.getD 61 0 = 0) :=
  ⟨by norm_num, by norm_num, by norm_num,
    palette_amended 2 1 [] (by norm_num) (by norm_num) (by norm_num)⟩

/-- C6: 1-bit pixel packing.  For a width `8 * m` and every pixel `(x, y)`,
the encoded bit for that pixel sits in output byte
`62 + (height - 1 - y) * paddedWidthBytes + x / 8` — input row `h - 1 - y`
of the output, i.e. rows are written in reverse vertical order — at bit
position `7 - x % 8` (8 consecutive pixels per byte, most significant bit
first), and equals 1 exactly when the sample is 255: any other value,
however close to white, packs as 0, so the encoder never thresholds. -/
theorem one_bit_pixel_packing (m h : Nat) (data : List Nat) (y x : Nat)
    (hy : y < h) (hx : x < 8 * m)
    (hw : 8 * m ≤ 2147483647) (hh : h ≤ 2147483647)
    (hfs : 62 + h * (m + (4 - m % 4) % 4) ≤ 4294967295) :
    ∃ out, bmpEncode (8 * m) h 1 data = Except.ok out ∧
      (out.getD (62 + ((h - 1 - y) * (m + (4 - m % 4) % 4) + x / 8)) 0).testBit
          (7 - x % 8) =
        decide (jsIndex data (y * (8 * m) + x) = some 255) := by
  obtain ⟨out, hok, hlen, h10, h11, h12, h13, h18, h22, h54, h55, h56, h57,
    h58, h59, h60, h61, hchar⟩ := bmpEncode_1 m h data hw hh hfs
  refine ⟨out, hok, ?_⟩
  have hxm : x / 8 < m := Nat.div_lt_of_lt_mul hx
  rw [hchar (h - 1 - y) (x / 8) (7 - x % 8) (by omega) (by omega),
    if_pos ⟨hxm, by omega⟩]
  have e1 : h - 1 - (h - 1 - y) = y := by omega
  have e2 : 8 * (x / 8) + (7 - (7 - x % 8)) = x := by omega
  rw [e1, e2]
  rfl

/-- Witness for C6 at `width = 8`, `height = 2`: the sample 255 at `(3, 0)`
packs as bit 1 of output byte `62 + 4`, bit position 4, and the near-white
sample 254 at `(7, 1)` packs as bit 0 — no thresholding. -/
theorem one_bit_pixel_packing_witness :
    (0 : ℕ) < 2 ∧ (3 : ℕ) < 8 * 1 ∧ (1 : ℕ) < 2 ∧ (7 : ℕ) < 8 * 1 ∧
    (∃ out, bmpEncode (8 * 1) 2 1
        [0, 0, 0, 255, 0, 0, 0, 0, 7, 0, 0, 0, 0, 0, 0, 254] = Except.ok out ∧
      (out.getD (62 + ((2 - 1 - 0) * (1 + (4 - 1 % 4) % 4) + 3 / 8)) 0).testBit
          (7 - 3 % 8) =
        decide (jsIndex [0, 0, 0, 255, 0, 0, 0, 0, 7, 0, 0, 0, 0, 0, 0, 254]
          (0 * (8 * 1) + 3) = some 255)) ∧
    (∃ out, bmpEncode (8 * 1) 2 1
        [0, 0, 0, 255, 0, 0, 0, 0, 7, 0, 0, 0, 0, 0, 0, 254] = Except.ok out ∧
      (out.getD (62 + ((2 - 1 - 1) * (1 + (4 - 1 % 4) % 4) + 7 / 8)) 0).testBit
          (7 - 7 % 8) =
        decide (jsIndex [0, 0, 0, 255, 0, 0, 0, 0, 7, 0, 0, 0, 0, 0, 0, 254]
          (1 * (8 * 1) + 7) = some 255)) :=
  ⟨by norm_num, by norm_num, by norm_num, by norm_num,
    one_bit_pixel_packing 1 2 [0, 0, 0, 255, 0, 0, 0, 0, 7, 0, 0, 0, 0, 0, 0, 254]
      0 3 (by norm_num) (by norm_num) (by norm_num) (by norm_num) (by norm_num),
    one_bit_pixel_packing 1 2 [0, 0, 0, 255, 0, 0, 0, 0, 7, 0, 0, 0, 0, 0, 0, 254]
      1 7 (by norm_num) (by norm_num) (by norm_num) (by norm_num) (by norm_num)⟩

/-- C7: unsupported depth at construction.  For every `bitsPerPixel` outside
{1, 24}, `new BMPEncoder(w, h, bitsPerPixel)` fails with the unsupported-depth
error immediately — the constructor touches no pixel data — and for
`bitsPerPixel` in {1, 24} construction succeeds. -/
theorem unsupported_depth_at_construction (w h bpp : Nat) :
    (¬(bpp = 1 ∨ bpp = 24) →
      mkBMPEncoder w h bpp = Except.error JsErr.unsupportedDepth) ∧
    ((bpp = 1 ∨ bpp = 24) → ∃ e, mkBMPEncoder w h bpp = Except.ok e) := by
  constructor
  · intro hno
    unfold mkBMPEncoder
    rw [if_pos]
    simp only [List.contains_cons, List.contains_nil, Bool.or_false,
      Bool.or_eq_false_iff, beq_eq_false_iff_ne, ne_eq]
    omega
  · intro hyes
    unfold mkBMPEncoder
    rw [if_neg]
    · exact ⟨_, rfl⟩
    · simp only [List.contains_cons, List.contains_nil, Bool.or_false,
        Bool.or_eq_false_iff, beq_eq_false_iff_ne, ne_eq]
      omega

/-- Witness for C7: depth 4 is rejected at construction, depths 1 and 24 are
accepted. -/
theorem unsupported_depth_witness :
    ¬((4 : ℕ) = 1 ∨ (4 : ℕ) = 24) ∧
    mkBMPEncoder 3 5 4 = Except.error JsErr.unsupportedDepth ∧
    (∃ e, mkBMPEncoder 3 5 1 = Except.ok e) ∧
    (∃ e, mkBMPEncoder 3 5 24 = Except.ok e) :=
  ⟨by norm_num,
    (unsupported_depth_at_construction 3 5 4).1 (by norm_num),
    (unsupported_depth_at_construction 3 5 1).2 (Or.inl rfl),
    (unsupported_depth_at_construction 3 5 24).2 (Or.inr rfl)⟩

theorem getD_setQ (l : List ℚ) (i j : Nat) (a : ℚ) :
    (l.set i a).getD j 0 = if j = i ∧ i < l.length then a else l.getD j 0 := by
  rw [List.getD_eq_getElem?_getD, List.getD_eq_getElem?_getD, List.getElem?_set]
  by_cases hij : i = j
  · subst hij
    by_cases hi : i < l.length
    · simp [hi]
    · simp [hi, List.getElem?_eq_none (by omega : l.length ≤ i)]
  · simp [hij, Ne.symm hij]

theorem diffuseAt_length (st : List ℚ) (i : Nat) (active : Bool) (amt : ℚ) :
    (diffuseAt st i active amt).length = st.length := by
  unfold diffuseAt
  cases active
  · rw [if_neg (by simp)]
  · rw [if_pos rfl, List.length_set]

theorem diffuseAt_getD (st : List ℚ) (i : Nat) (active : Bool) (amt : ℚ) (j : Nat) :
    (diffuseAt st i active amt).getD j 0 =
      (if active = true ∧ j = i ∧ i < st.length then st.getD j 0 + amt
        else st.getD j 0) := by
  unfold diffuseAt
  cases active
  · rw [if_neg (by simp), if_neg (by simp)]
  · rw [if_pos rfl, getD_setQ]
    by_cases hc : j = i ∧ i < st.length
    · rw [if_pos hc, if_pos ⟨rfl, hc⟩, hc.1]
    · rw [if_neg hc, if_neg (fun hh => hc hh.2)]

theorem foldl_best_mem (v : ℚ) :
    ∀ (ls : List ℚ) (b : ℚ) (S : List ℚ), b ∈ S → (∀ c ∈ ls, c ∈ S) →
      ls.foldl (fun best c => if |v - c| < |v - best| then c else best) b ∈ S := by
  intro ls
  induction ls with
  | nil =>
    intro b S hb _
    exact hb
  | cons a t ih =>
    intro b S hb hc
    rw [List.foldl_cons]
    have hstep : (if |v - a| < |v - b| then a else b) ∈ S := by
      by_cases hcd : |v - a| < |v - b|
      · rw [if_pos hcd]
        exact hc a (by simp)
      · rw [if_neg hcd]
        exact hb
    exact ih _ S hstep (fun c hcm => hc c (by simp [hcm]))

theorem foldl_best_le (v : ℚ) :
    ∀ (ls : List ℚ) (b : ℚ),
      |v - ls.foldl (fun best c => if |v - c| < |v - best| then c else best) b| ≤
        |v - b| ∧
      ∀ l ∈ ls,
        |v - ls.foldl (fun best c => if |v - c| < |v - best| then c else best) b| ≤
          |v - l| := by
  intro ls
  induction ls with
  | nil =>
    intro b
    exact ⟨le_refl _, fun l hl => absurd hl (List.not_mem_nil l)⟩
  | cons a t ih =>
    intro b
    rw [List.foldl_cons]
    by_cases hcd : |v - a| < |v - b|
    · rw [if_pos hcd]
      obtain ⟨h1, h2⟩ := ih a
      refine ⟨le_trans h1 (le_of_lt hcd), fun l hl => ?_⟩
      rcases List.mem_cons.mp hl with hl | hl
      · rw [hl]
        exact h1
      · exact h2 l hl
    · rw [if_neg hcd]
      obtain ⟨h1, h2⟩ := ih b
      refine ⟨h1, fun l hl => ?_⟩
      rcases List.mem_cons.mp hl with hl | hl
      · rw [hl]
        exact le_trans h1 (not_lt.mp hcd)
      · exact h2 l hl

theorem nearestLevel_mem (levels : List ℚ) (v : ℚ) (h : levels ≠ []) :
    nearestLevel levels v ∈ levels := by
  cases levels with
  | nil => exact absurd rfl h
  | cons b ls =>
    show ls.foldl (fun best c => if |v - c| < |v - best| then c else best) b ∈ b :: ls
    exact foldl_best_mem v ls b (b :: ls) (by simp) (fun c hc => by simp [hc])

theorem nearestLevel_min (levels : List ℚ) (v : ℚ) :
    ∀ l ∈ levels, |v - nearestLevel levels v| ≤ |v - l| := by
  cases levels with
  | nil =>
    intro l hl
    exact absurd hl (List.not_mem_nil l)
  | cons b ls =>
    intro l hl
    obtain ⟨h1, h2⟩ := foldl_best_le v ls b
    rcases List.mem_cons.mp hl with hl | hl
    · rw [hl]
      exact h1
    · exact h2 l hl

theorem fsStep_char (w h : Nat) (levels : List ℚ) (st : List ℚ) (x y j : Nat)
    (hx : x < w) (hy : y < h) (hst : st.length = w * h) :
    (fsStep w h levels st (y * w + x)).getD j 0 =
      (if j = y * w + x ∧ y * w + x < w * h then
        nearestLevel levels (st.getD (y * w + x) 0)
      else if (x + 1 < w) ∧ j = y * w + x + 1 ∧ y * w + x + 1 < w * h then
        st.getD j 0 + (st.getD (y * w + x) 0 -
          nearestLevel levels (st.getD (y * w + x) 0)) * (7 / 16)
      else if (0 < x ∧ y + 1 < h) ∧ j = y * w + x + w - 1 ∧
          y * w + x + w - 1 < w * h then
        st.getD j 0 + (st.getD (y * w + x) 0 -
          nearestLevel levels (st.getD (y * w + x) 0)) * (3 / 16)
      else if (y + 1 < h) ∧ j = y * w + x + w ∧ y * w + x + w < w * h then
        st.getD j 0 + (st.getD (y * w + x) 0 -
          nearestLevel levels (st.getD (y * w + x) 0)) * (5 / 16)
      else if (x + 1 < w ∧ y + 1 < h) ∧ j = y * w + x + w + 1 ∧
          y * w + x + w + 1 < w * h then
        st.getD j 0 + (st.getD (y * w + x) 0 -
          nearestLevel levels (st.getD (y * w + x) 0)) * (1 / 16)
      else st.getD j 0) := by
  have hw : 0 < w := by omega
  have hmod : (y * w + x) % w = x := by
    rw [Nat.mul_comm, Nat.mul_add_mod, Nat.mod_eq_of_lt hx]
  have hdiv : (y * w + x) / w = y := by
    rw [Nat.mul_comm, Nat.mul_add_div hw, Nat.div_eq_of_lt hx, Nat.add_zero]
  unfold fsStep
  dsimp only
  rw [hmod, hdiv, diffuseAt_getD, diffuseAt_getD, diffuseAt_getD, diffuseAt_getD,
    getD_setQ]
  simp only [decide_eq_true_eq, diffuseAt_length, List.length_set, hst]
  split_ifs
  all_goals try rfl
  all_goals try ring
  all_goals (exfalso; omega)

/-- C9: Floyd-Steinberg error diffusion (spec-modelled: the kernel runs inside
GraphicsMagick, outside this repository's sources).  Pixels are processed in
raster order — `fsDither` folds `fsStep` over indices `0, 1, ..., w*h - 1`,
i.e. left to right, top to bottom; each pixel's error-adjusted value is
quantized to a member of the target levels that minimizes the distance to the
value; and one step at pixel `(x, y)` writes the quantized value at that pixel
and adds exactly `error * 7/16` to the right neighbour, `error * 3/16` below
left, `error * 5/16` below and `error * 1/16` below right — each only when
that neighbour is in bounds, so boundary pixels drop the out-of-bounds share —
and changes nothing else. -/
theorem floyd_steinberg_diffusion (w h : Nat) (levels : List ℚ) (st : List ℚ)
    (v : ℚ) (x y j : Nat) (hx : x < w) (hy : y < h) (hst : st.length = w * h)
    (hlev : levels ≠ []) :
    (∀ img, fsDither w h levels img =
      (List.range (w * h)).foldl (fsStep w h levels) img) ∧
    nearestLevel levels v ∈ levels ∧
    (∀ l ∈ levels, |v - nearestLevel levels v| ≤ |v - l|) ∧
    ((fsStep w h levels st (y * w + x)).getD j 0 =
      (if j = y * w + x ∧ y * w + x < w * h then
        nearestLevel levels (st.getD (y * w + x) 0)
      else if (x + 1 < w) ∧ j = y * w + x + 1 ∧ y * w + x + 1 < w * h then
        st.getD j 0 + (st.getD (y * w + x) 0 -
          nearestLevel levels (st.getD (y * w + x) 0)) * (7 / 16)
      else if (0 < x ∧ y + 1 < h) ∧ j = y * w + x + w - 1 ∧
          y * w + x + w - 1 < w * h then
        st.getD j 0 + (st.getD (y * w + x) 0 -
          nearestLevel levels (st.getD (y * w + x) 0)) * (3 / 16)
      else if (y + 1 < h) ∧ j = y * w + x + w ∧ y * w + x + w < w * h then
        st.getD j 0 + (st.getD (y * w + x) 0 -
          nearestLevel levels (st.getD (y * w + x) 0)) * (5 / 16)
      else if (x + 1 < w ∧ y + 1 < h) ∧ j = y * w + x + w + 1 ∧
          y * w + x + w + 1 < w * h then
        st.getD j 0 + (st.getD (y * w + x) 0 -
          nearestLevel levels (st.getD (y * w + x) 0)) * (1 / 16)
      else st.getD j 0)) :=
  ⟨fun _ => rfl, nearestLevel_mem levels v hlev, nearestLevel_min levels v,
    fsStep_char w h levels st x y j hx hy hst⟩

/-- Witness for C9 on a 2x2 image with levels {0, 255}, at pixel `(0, 0)` and
observed index 1 (the right neighbour). -/
theorem floyd_steinberg_diffusion_witness :
    (0 : ℕ) < 2 ∧ ([100, 10, 20, 30] : List ℚ).length = 2 * 2 ∧
    ([0, 255] : List ℚ) ≠ [] ∧
    ((∀ img, fsDither 2 2 [0, 255] img =
      (List.range (2 * 2)).foldl (fsStep 2 2 [0, 255]) img) ∧
    nearestLevel [0, 255] 100 ∈ ([0, 255] : List ℚ) ∧
    (∀ l ∈ ([0, 255] : List ℚ),
      |(100 : ℚ) - nearestLevel [0, 255] 100| ≤ |(100 : ℚ) - l|) ∧
    ((fsStep 2 2 [0, 255] [100, 10, 20, 30] (0 * 2 + 0)).getD 1 0 =
      (if (1 : ℕ) = 0 * 2 + 0 ∧ 0 * 2 + 0 < 2 * 2 then
        nearestLevel [0, 255] (([100, 10, 20, 30] : List ℚ).getD (0 * 2 + 0) 0)
      else if (0 + 1 < 2) ∧ (1 : ℕ) = 0 * 2 + 0 + 1 ∧ 0 * 2 + 0 + 1 < 2 * 2 then
        ([100, 10, 20, 30] : List ℚ).getD 1 0 +
          (([100, 10, 20, 30] : List ℚ).getD (0 * 2 + 0) 0 -
            nearestLevel [0, 255]
              (([100, 10, 20, 30] : List ℚ).getD (0 * 2 + 0) 0)) * (7 / 16)
      else if (0 < 0 ∧ 0 + 1 < 2) ∧ (1 : ℕ) = 0 * 2 + 0 + 2 - 1 ∧
          0 * 2 + 0 + 2 - 1 < 2 * 2 then
        ([100, 10, 20, 30] : List ℚ).getD 1 0 +
          (([100, 10, 20, 30] : List ℚ).getD (0 * 2 + 0) 0 -
            nearestLevel [0, 255]
              (([100, 10, 20, 30] : List ℚ).getD (0 * 2 + 0) 0)) * (3 / 16)
      else if (0 + 1 < 2) ∧ (1 : ℕ) = 0 * 2 + 0 + 2 ∧ 0 * 2 + 0 + 2 < 2 * 2 then
        ([100, 10, 20, 30] : List ℚ).getD 1 0 +
          (([100, 10, 20, 30] : List ℚ).getD (0 * 2 + 0) 0 -
            nearestLevel [0, 255]
              (([100, 10, 20, 30] : List ℚ).getD (0 * 2 + 0) 0)) * (5 / 16)
      else if (0 + 1 < 2 ∧ 0 + 1 < 2) ∧ (1 : ℕ) = 0 * 2 + 0 + 2 + 1 ∧
          0 * 2 + 0 + 2 + 1 < 2 * 2 then
        ([100, 10, 20, 30] : List ℚ).getD 1 0 +
          (([100, 10, 20, 30] : List ℚ).getD (0 * 2 + 0) 0 -
            nearestLevel [0, 255]
              (([100, 10, 20, 30] : List ℚ).getD (0 * 2 + 0) 0)) * (1 / 16)
      else ([100, 10, 20, 30] : List ℚ).getD 1 0))) :=
  ⟨by norm_num, rfl, by simp,
    floyd_steinberg_diffusion 2 2 [0, 255] [100, 10, 20, 30] 100 0 0 1
      (by norm_num) (by norm_num) rfl (by simp)⟩
